import Mathlib

set_option autoImplicit false

namespace TToken

/-- The bound of unsigned 64-bit arithmetic: values are in `[0, U64LIMIT)`. -/
def U64LIMIT : Nat := 2 ^ 64

/-- Modelled from the spec: the contract's `u64` arithmetic. The spec states
"arithmetic overflow/underflow is a fatal error, not silent wraparound"; the
build profile that decides Rust's overflow behaviour is not part of the
sources, so additions are modelled as checked: `some` of the sum when it fits
in 64 bits, `none` (a fatal error at the call site) otherwise. -/
def checkedAdd (a b : Nat) : Option Nat :=
  if a + b < U64LIMIT then some (a + b) else none

/-- `Account` from `ttoken-types`: an externally owned account (keyed by a BLS
public key) or a contract account (keyed by a contract id). Keys are
abstracted to `Nat`; no claim depends on the byte-level representation. -/
inductive Account where
  | External (pk : Nat)
  | Contract (cid : Nat)
deriving DecidableEq, Repr

/-- `AccountInfo` from `ttoken-types`: balance and nonce of an account. -/
structure AccountInfo where
  balance : Nat
  nonce : Nat
deriving DecidableEq, Repr

/-- `AccountInfo::EMPTY`. -/
def AccountInfo.EMPTY : AccountInfo := ⟨0, 0⟩

/-- Association-list model of `BTreeMap`: only `get`/`entry`/`insert` behaviour
matters to the claims, not the key ordering. -/
abbrev AMap (α β : Type) : Type := List (α × β)

namespace AMap

variable {α β : Type} [DecidableEq α]

/-- `BTreeMap::get`. -/
def find? : AMap α β → α → Option β
  | [], _ => none
  | (k, v) :: rest, a => if k = a then some v else find? rest a

/-- `BTreeMap::insert` (also the write-back of `entry(..).or_insert(..)`
followed by a mutation of the entry). -/
def insert : AMap α β → α → β → AMap α β
  | [], a, b => [(a, b)]
  | (k, v) :: rest, a, b => if k = a then (a, b) :: rest else (k, v) :: insert rest a b

end AMap

/-- `TokenState` from the contract: account registry, allowance table, supply. -/
structure TokenState where
  accounts : AMap Account AccountInfo
  allowances : AMap Account (AMap Account Nat)
  supply : Nat
deriving DecidableEq, Repr

/-- The initial `STATE` static: empty maps, zero supply. -/
def TokenState.empty : TokenState := ⟨[], [], 0⟩

/-- `Transfer` request from `ttoken-types`: `from` is a public key (the field
is named `from_pk` because `from` is a Lean keyword), `to` an account. The
signature is abstract; `Host.verifyTransfer` stands for
`verify_bls(signature_message(), from, signature)`, which is a function of
the whole request. -/
structure Transfer where
  from_pk : Nat
  to_acc : Account
  value : Nat
  nonce : Nat
  signature : Nat
deriving DecidableEq, Repr

/-- `TransferFrom` request from `ttoken-types`. -/
structure TransferFrom where
  spender : Nat
  owner : Account
  to_acc : Account
  value : Nat
  nonce : Nat
  signature : Nat
deriving DecidableEq, Repr

/-- `Approve` request from `ttoken-types`. -/
structure Approve where
  owner : Nat
  spender : Account
  value : Nat
  nonce : Nat
  signature : Nat
deriving DecidableEq, Repr

/-- `TransferFromContract` request: it carries a `from` field (used by the
holder test contract for bookkeeping), but the token contract itself reads
only `value` and `to`. -/
structure TransferFromContract where
  from_acc : Option Account
  to_acc : Account
  value : Nat
deriving DecidableEq, Repr

/-- `TransferInfo` payload of the `token_received` acceptance callback. -/
structure TransferInfo where
  from_acc : Account
  value : Nat
deriving DecidableEq, Repr

/-- `Allowance` query arguments from `ttoken-types`. -/
structure Allowance where
  owner : Account
  spender : Account
deriving DecidableEq, Repr

/-- Modelled from the spec: the host services of `rusk_abi`, which are not
part of the sources. `verifyTransfer`/`verifyTransferFrom`/`verifyApprove`
abstract `verify_bls(msg, key, sig)` — message, key and signature are all
functions of the request, so verification is a boolean function of the
request. `caller` is the host's attestation of the calling contract
(`rusk_abi::caller`), and `callOk c info` tells whether the nested
`token_received` invocation on contract `c` with payload `info` succeeds. -/
structure Host where
  verifyTransfer : Transfer → Bool
  verifyTransferFrom : TransferFrom → Bool
  verifyApprove : Approve → Bool
  caller : Option Nat
  callOk : Nat → TransferInfo → Bool

/-- The failure taxonomy: each constructor is one `panic!`/`expect` site of
the contract (`NoAllowance` covers both "has no allowances" and "spender is
not allowed"; `Overflow` is the fatal checked-arithmetic error; `NoCaller`
is "Must be called by a contract"). -/
inductive TokenError where
  | NoSuchAccount
  | InsufficientBalance
  | InvalidNonce
  | InvalidSignature
  | NoAllowance
  | InsufficientAllowance
  | AcceptanceCallbackFailed
  | NoCaller
  | Overflow
deriving DecidableEq, Repr

/-- Outcome of an operation: `ok` with the new state, or an error paired with
the in-place mutated state at the moment the panic was raised (the Rust code
mutates `STATE` in place; the state reached at the panic site is the payload,
and the host discards it — see `observe`). -/
abbrev TxResult : Type := Except (TokenError × TokenState) TokenState

/-- Modelled from the spec: the host's transactional rollback (§6): if the
operation reports failure, every mutation made during the call is discarded
as a unit, so callers observe the pre-state. -/
def observe (pre : TokenState) (r : TxResult) : TokenState :=
  match r with
  | .ok st => st
  | .error _ => pre

namespace TokenState

/-- Query `account`: the record for `account` or the empty record. -/
def account (st : TokenState) (a : Account) : AccountInfo :=
  (AMap.find? st.accounts a).getD AccountInfo.EMPTY

/-- Query `allowance`: the approved amount for `(owner, spender)` or 0. -/
def allowance (st : TokenState) (al : Allowance) : Nat :=
  match AMap.find? st.allowances al.owner with
  | some allowances => (AMap.find? allowances al.spender).getD 0
  | none => 0

/-- One iteration of `init`'s loop: `entry(account).or_insert(EMPTY)`, then
`account.balance += balance` and `supply += balance` (checked). -/
def initStep (st : TokenState) (p : Account × Nat) : TxResult :=
  let acc := (AMap.find? st.accounts p.1).getD AccountInfo.EMPTY
  match checkedAdd acc.balance p.2 with
  | none => .error (.Overflow, st)
  | some newBal =>
    match checkedAdd st.supply p.2 with
    | none => .error (.Overflow, { st with accounts := AMap.insert st.accounts p.1 { acc with balance := newBal } })
    | some newSupply =>
      .ok { st with
              accounts := AMap.insert st.accounts p.1 { acc with balance := newBal },
              supply := newSupply }

/-- `TokenState::init`: fold `initStep` over the genesis list. -/
def init (st : TokenState) (l : List (Account × Nat)) : TxResult :=
  match l with
  | [] => .ok st
  | p :: rest =>
    match initStep st p with
    | .error e => .error e
    | .ok st' => init st' rest

/-- `TokenState::transfer`, following the source order exactly: look up `from`
(`expect` → `NoSuchAccount`); balance check; `from_account.nonce + 1`
(checked — a fatal `Overflow` in Rust's checked arithmetic happens at this
read) and nonce check; debit and nonce increment applied in place; signature
verification (after the mutation); credit `to` (`entry(..).or_insert(EMPTY)`,
checked add); and, when `to` is a contract, the `token_received` acceptance
call, whose failure panics. -/
def transfer (h : Host) (st : TokenState) (t : Transfer) : TxResult :=
  let from_id := Account.External t.from_pk
  match AMap.find? st.accounts from_id with
  | none => .error (.NoSuchAccount, st)
  | some from_account =>
    if from_account.balance < t.value then .error (.InsufficientBalance, st)
    else
      match checkedAdd from_account.nonce 1 with
      | none => .error (.Overflow, st)
      | some nonce1 =>
        if t.nonce ≠ nonce1 then .error (.InvalidNonce, st)
        else
          let st1 : TokenState :=
            { st with accounts :=
                AMap.insert st.accounts from_id ⟨from_account.balance - t.value, nonce1⟩ }
          if ¬ h.verifyTransfer t then .error (.InvalidSignature, st1)
          else
            let to_account := (AMap.find? st1.accounts t.to_acc).getD AccountInfo.EMPTY
            match checkedAdd to_account.balance t.value with
            | none => .error (.Overflow, st1)
            | some newBal =>
              let st2 : TokenState :=
                { st1 with accounts :=
                    AMap.insert st1.accounts t.to_acc { to_account with balance := newBal } }
              match t.to_acc with
              | .Contract c =>
                if h.callOk c ⟨from_id, t.value⟩ then .ok st2
                else .error (.AcceptanceCallbackFailed, st2)
              | .External _ => .ok st2

/-- `TokenState::transfer_from`, following the source order exactly: the
spender's record is created by `entry(..).or_insert(EMPTY)` if absent; nonce
check against it; nonce increment; signature verification; allowance lookup
(either missing level is a fatal `NoAllowance`-class `expect`); allowance
amount check; owner lookup (`expect` → `NoSuchAccount`); owner balance check;
then allowance decrement, owner debit, `to` credit, and the acceptance call
when `to` is a contract. -/
def transfer_from (h : Host) (st : TokenState) (t : TransferFrom) : TxResult :=
  let spender := Account.External t.spender
  let spender_account := (AMap.find? st.accounts spender).getD AccountInfo.EMPTY
  let st0 : TokenState :=
    { st with accounts := AMap.insert st.accounts spender spender_account }
  match checkedAdd spender_account.nonce 1 with
  | none => .error (.Overflow, st0)
  | some nonce1 =>
    if t.nonce ≠ nonce1 then .error (.InvalidNonce, st0)
    else
      let st1 : TokenState :=
        { st0 with accounts :=
            AMap.insert st0.accounts spender { spender_account with nonce := nonce1 } }
      if ¬ h.verifyTransferFrom t then .error (.InvalidSignature, st1)
      else
        match AMap.find? st1.allowances t.owner with
        | none => .error (.NoAllowance, st1)
        | some owner_allowances =>
          match AMap.find? owner_allowances spender with
          | none => .error (.NoAllowance, st1)
          | some allowance_amt =>
            if t.value > allowance_amt then .error (.InsufficientAllowance, st1)
            else
              match AMap.find? st1.accounts t.owner with
              | none => .error (.NoSuchAccount, st1)
              | some owner_account =>
                if owner_account.balance < t.value then .error (.InsufficientBalance, st1)
                else
                  let na := AMap.insert owner_allowances spender (allowance_amt - t.value)
                  let st2 : TokenState :=
                    { st1 with allowances := AMap.insert st1.allowances t.owner na }
                  let debited := { owner_account with balance := owner_account.balance - t.value }
                  let st3 : TokenState :=
                    { st2 with accounts := AMap.insert st2.accounts t.owner debited }
                  let to_account := (AMap.find? st3.accounts t.to_acc).getD AccountInfo.EMPTY
                  match checkedAdd to_account.balance t.value with
                  | none => .error (.Overflow, st3)
                  | some newBal =>
                    let st4 : TokenState :=
                      { st3 with accounts :=
                          AMap.insert st3.accounts t.to_acc { to_account with balance := newBal } }
                    match t.to_acc with
                    | .Contract c =>
                      if h.callOk c ⟨t.owner, t.value⟩ then .ok st4
                      else .error (.AcceptanceCallbackFailed, st4)
                    | .External _ => .ok st4

/-- `TokenState::transfer_from_contract`, following the source order exactly:
the sender is `rusk_abi::caller()` (`expect` → `NoCaller`), never a request
field; caller lookup (`expect` → `NoSuchAccount`); balance check; debit;
credit `to` (checked); acceptance call when `to` is a contract. The nonce of
the caller is never touched. -/
def transfer_from_contract (h : Host) (st : TokenState) (t : TransferFromContract) : TxResult :=
  match h.caller with
  | none => .error (.NoCaller, st)
  | some cid =>
    let contract := Account.Contract cid
    match AMap.find? st.accounts contract with
    | none => .error (.NoSuchAccount, st)
    | some contract_account =>
      if contract_account.balance < t.value then .error (.InsufficientBalance, st)
      else
        let debited := { contract_account with balance := contract_account.balance - t.value }
        let st1 : TokenState :=
          { st with accounts := AMap.insert st.accounts contract debited }
        let to_account := (AMap.find? st1.accounts t.to_acc).getD AccountInfo.EMPTY
        match checkedAdd to_account.balance t.value with
        | none => .error (.Overflow, st1)
        | some newBal =>
          let st2 : TokenState :=
            { st1 with accounts :=
                AMap.insert st1.accounts t.to_acc { to_account with balance := newBal } }
          match t.to_acc with
          | .Contract c =>
            if h.callOk c ⟨contract, t.value⟩ then .ok st2
            else .error (.AcceptanceCallbackFailed, st2)
          | .External _ => .ok st2

/-- `TokenState::approve`, following the source order exactly: the owner's
record is created by `entry(..).or_insert(EMPTY)` if absent; nonce check;
nonce increment; signature verification; then
`allowances.entry(owner).or_insert(new).insert(spender, value)`. -/
def approve (h : Host) (st : TokenState) (a : Approve) : TxResult :=
  let owner := Account.External a.owner
  let owner_account := (AMap.find? st.accounts owner).getD AccountInfo.EMPTY
  let st0 : TokenState :=
    { st with accounts := AMap.insert st.accounts owner owner_account }
  match checkedAdd owner_account.nonce 1 with
  | none => .error (.Overflow, st0)
  | some nonce1 =>
    if a.nonce ≠ nonce1 then .error (.InvalidNonce, st0)
    else
      let st1 : TokenState :=
        { st0 with accounts :=
            AMap.insert st0.accounts owner { owner_account with nonce := nonce1 } }
      if ¬ h.verifyApprove a then .error (.InvalidSignature, st1)
      else
        let owner_allowances := (AMap.find? st1.allowances owner).getD []
        let na := AMap.insert owner_allowances a.spender a.value
        let st2 : TokenState :=
          { st1 with allowances := AMap.insert st1.allowances owner na }
        .ok st2

end TokenState

/-- A state is reachable when it arises from genesis initialization of the
empty state followed by any sequence of successful operations, under any
host behaviour at each step. -/
inductive Reachable : TokenState → Prop
  | genesis (l : List (Account × Nat)) (st : TokenState) :
      TokenState.init TokenState.empty l = .ok st → Reachable st
  | step_transfer (h : Host) (st st' : TokenState) (t : Transfer) :
      Reachable st → TokenState.transfer h st t = .ok st' → Reachable st'
  | step_transfer_from (h : Host) (st st' : TokenState) (t : TransferFrom) :
      Reachable st → TokenState.transfer_from h st t = .ok st' → Reachable st'
  | step_transfer_from_contract (h : Host) (st st' : TokenState) (t : TransferFromContract) :
      Reachable st → TokenState.transfer_from_contract h st t = .ok st' → Reachable st'
  | step_approve (h : Host) (st st' : TokenState) (a : Approve) :
      Reachable st → TokenState.approve h st a = .ok st' → Reachable st'

/-- Sum of the balances stored in the account registry. -/
def sumBal : AMap Account AccountInfo → Nat
  | [] => 0
  | (_, v) :: rest => v.balance + sumBal rest

/-! ### Spec-side effect transformers

The spec describes the effects of a successful operation as a sequence of
elementary updates ("debit `from.balance` by `value`, increment `from.nonce`,
credit `to.balance` by `value` (creating `to`'s record if absent)", …).
The following definitions follow those words; the refinement theorems below
prove that the code's operations, on success, produce exactly these
compositions. -/

/-- Modelled from the spec: "debit `a.balance` by `v`" (the account is viewed
through `account`, i.e. an absent record reads as the empty record). -/
def specDebit (st : TokenState) (a : Account) (v : Nat) : TokenState :=
  { st with accounts := AMap.insert st.accounts a { st.account a with balance := (st.account a).balance - v } }

/-- Modelled from the spec: "increment `a.nonce`". -/
def specIncNonce (st : TokenState) (a : Account) : TokenState :=
  { st with accounts := AMap.insert st.accounts a { st.account a with nonce := (st.account a).nonce + 1 } }

/-- Modelled from the spec: "credit `a.balance` by `v` (creating `a`'s record
if absent)". -/
def specCredit (st : TokenState) (a : Account) (v : Nat) : TokenState :=
  { st with accounts := AMap.insert st.accounts a { st.account a with balance := (st.account a).balance + v } }

/-- Modelled from the spec: "*sets* (not adds to) the `(owner, spender)`
allowance to `value`". -/
def specSetAllowance (st : TokenState) (o s : Account) (v : Nat) : TokenState :=
  { st with allowances := AMap.insert st.allowances o (AMap.insert ((AMap.find? st.allowances o).getD []) s v) }

/-- Modelled from the spec: "decrement the allowance by `value` (a partial
spend leaves the remainder)". -/
def specDecAllowance (st : TokenState) (o s : Account) (v : Nat) : TokenState :=
  specSetAllowance st o s (st.allowance ⟨o, s⟩ - v)

/-! ### Map lemmas -/

theorem AMap.find?_insert {α β : Type} [DecidableEq α] (m : AMap α β) (k : α) (v : β) (a : α) :
    AMap.find? (AMap.insert m k v) a = if k = a then some v else AMap.find? m a := by
  induction m with
  | nil => simp [AMap.insert, AMap.find?]
  | cons p rest ih =>
    obtain ⟨k', v'⟩ := p
    by_cases hk : k' = k
    · subst hk
      by_cases ha : k' = a <;> simp [AMap.insert, AMap.find?, ha]
    · by_cases ha : k' = a
      · subst ha
        have : ¬ k = k' := fun h => hk h.symm
        simp [AMap.insert, AMap.find?, hk, this]
      · simp [AMap.insert, AMap.find?, hk, ha, ih]

theorem AMap.insert_insert_same {α β : Type} [DecidableEq α] (m : AMap α β) (k : α) (v w : β) :
    AMap.insert (AMap.insert m k v) k w = AMap.insert m k w := by
  induction m with
  | nil => simp [AMap.insert]
  | cons p rest ih =>
    obtain ⟨k', v'⟩ := p
    by_cases hk : k' = k <;> simp [AMap.insert, hk, ih]

theorem AMap.insert_self_of_find? {α β : Type} [DecidableEq α] {m : AMap α β} {k : α} {v : β}
    (h : AMap.find? m k = some v) : AMap.insert m k v = m := by
  induction m with
  | nil => simp [AMap.find?] at h
  | cons p rest ih =>
    obtain ⟨k', v'⟩ := p
    by_cases hk : k' = k
    · subst hk
      simp [AMap.find?] at h
      simp [AMap.insert, h]
    · simp [AMap.find?, hk] at h
      simp [AMap.insert, hk, ih h]

theorem AMap.mem_insert {α β : Type} [DecidableEq α] {m : AMap α β} {k : α} {v : β}
    {p : α × β} (h : p ∈ AMap.insert m k v) : p ∈ m ∨ p = (k, v) := by
  induction m with
  | nil => simp [AMap.insert] at h; simp [h]
  | cons q rest ih =>
    obtain ⟨k', v'⟩ := q
    by_cases hk : k' = k
    · subst hk
      simp [AMap.insert] at h
      rcases h with h | h
      · right; simp [h]
      · left; simp [h]
    · simp [AMap.insert, hk] at h
      rcases h with h | h
      · left; simp [h]
      · rcases ih h with h' | h'
        · left; simp [h']
        · right; exact h'

theorem sumBal_insert_some {m : AMap Account AccountInfo} {k : Account} {w : AccountInfo}
    (v : AccountInfo) (h : AMap.find? m k = some w) :
    sumBal (AMap.insert m k v) + w.balance = sumBal m + v.balance := by
  induction m with
  | nil => simp [AMap.find?] at h
  | cons p rest ih =>
    obtain ⟨k', v'⟩ := p
    by_cases hk : k' = k
    · subst hk
      simp [AMap.find?] at h
      subst h
      simp [AMap.insert, sumBal]
      omega
    · simp [AMap.find?, hk] at h
      have := ih h
      simp [AMap.insert, hk, sumBal]
      omega

theorem sumBal_insert_none {m : AMap Account AccountInfo} {k : Account}
    (v : AccountInfo) (h : AMap.find? m k = none) :
    sumBal (AMap.insert m k v) = sumBal m + v.balance := by
  induction m with
  | nil => simp [AMap.insert, sumBal]
  | cons p rest ih =>
    obtain ⟨k', v'⟩ := p
    by_cases hk : k' = k
    · subst hk; simp [AMap.find?] at h
    · simp [AMap.find?, hk] at h
      simp [AMap.insert, hk, sumBal, ih h]
      omega

theorem find?_balance_le_sumBal {m : AMap Account AccountInfo} {k : Account} {w : AccountInfo}
    (h : AMap.find? m k = some w) : w.balance ≤ sumBal m := by
  induction m with
  | nil => simp [AMap.find?] at h
  | cons p rest ih =>
    obtain ⟨k', v'⟩ := p
    by_cases hk : k' = k
    · subst hk
      simp [AMap.find?] at h
      subst h
      simp [sumBal]
    · simp [AMap.find?, hk] at h
      have := ih h
      simp [sumBal]
      omega

theorem find?_two_balance_le_sumBal {m : AMap Account AccountInfo} {k₁ k₂ : Account}
    {w₁ w₂ : AccountInfo} (hk : k₁ ≠ k₂)
    (h₁ : AMap.find? m k₁ = some w₁) (h₂ : AMap.find? m k₂ = some w₂) :
    w₁.balance + w₂.balance ≤ sumBal m := by
  induction m with
  | nil => simp [AMap.find?] at h₁
  | cons p rest ih =>
    obtain ⟨k', v'⟩ := p
    by_cases hk1 : k' = k₁
    · subst hk1
      simp [AMap.find?] at h₁
      subst h₁
      have hne : ¬ k' = k₂ := fun h => hk h
      simp [AMap.find?, hne] at h₂
      have := find?_balance_le_sumBal h₂
      simp [sumBal]
      omega
    · by_cases hk2 : k' = k₂
      · subst hk2
        simp [AMap.find?] at h₂
        subst h₂
        simp [AMap.find?, hk1] at h₁
        have := find?_balance_le_sumBal h₁
        simp [sumBal]
        omega
      · simp [AMap.find?, hk1] at h₁
        simp [AMap.find?, hk2] at h₂
        have := ih h₁ h₂
        simp [sumBal]
        omega

/-! ### The state invariant carried along reachable states -/

/-- Invariant of reachable states: the stored supply equals the sum of the
balances in the registry and fits in 64 bits; every stored nonce fits in 64
bits; and every owner that has an allowance entry has an account record. -/
def Inv (st : TokenState) : Prop :=
  st.supply = sumBal st.accounts ∧
  st.supply < U64LIMIT ∧
  (∀ p ∈ st.accounts, p.2.nonce < U64LIMIT) ∧
  (∀ o oa s amt, AMap.find? st.allowances o = some oa → AMap.find? oa s = some amt →
      (AMap.find? st.accounts o).isSome = true)

theorem account_eq_of_find? {st : TokenState} {a : Account} {fa : AccountInfo}
    (h : AMap.find? st.accounts a = some fa) : st.account a = fa := by
  simp [TokenState.account, h]

theorem account_empty_of_find? {st : TokenState} {a : Account}
    (h : AMap.find? st.accounts a = none) : st.account a = AccountInfo.EMPTY := by
  simp [TokenState.account, h]

theorem specIncNonce_specDebit (st : TokenState) (a : Account) (v : Nat) :
    specIncNonce (specDebit st a v) a =
      { st with accounts :=
          AMap.insert st.accounts a ⟨(st.account a).balance - v, (st.account a).nonce + 1⟩ } := by
  simp [specIncNonce, specDebit, TokenState.account, AMap.find?_insert, AMap.insert_insert_same]

theorem specCredit_accounts (st : TokenState) (a : Account) (v : Nat) :
    (specCredit st a v).accounts =
      AMap.insert st.accounts a ⟨(st.account a).balance + v, (st.account a).nonce⟩ := rfl

theorem specDebit_accounts (st : TokenState) (a : Account) (v : Nat) :
    (specDebit st a v).accounts =
      AMap.insert st.accounts a ⟨(st.account a).balance - v, (st.account a).nonce⟩ := rfl

theorem specIncNonce_accounts (st : TokenState) (a : Account) :
    (specIncNonce st a).accounts =
      AMap.insert st.accounts a ⟨(st.account a).balance, (st.account a).nonce + 1⟩ := rfl

theorem sumBal_specCredit (st : TokenState) (a : Account) (v : Nat) :
    sumBal (specCredit st a v).accounts = sumBal st.accounts + v := by
  rw [specCredit_accounts]
  cases hfind : AMap.find? st.accounts a with
  | none =>
    have := sumBal_insert_none (m := st.accounts) (k := a)
      ⟨(st.account a).balance + v, (st.account a).nonce⟩ hfind
    rw [this, account_empty_of_find? hfind]
    simp [AccountInfo.EMPTY]
  | some w =>
    have := sumBal_insert_some (m := st.accounts) (k := a)
      ⟨(st.account a).balance + v, (st.account a).nonce⟩ hfind
    rw [account_eq_of_find? hfind] at this
    simp at this
    rw [account_eq_of_find? hfind]
    omega

theorem sumBal_specDebit {st : TokenState} {a : Account} {fa : AccountInfo} (v : Nat)
    (hfind : AMap.find? st.accounts a = some fa) (hv : v ≤ fa.balance) :
    sumBal (specDebit st a v).accounts + v = sumBal st.accounts := by
  rw [specDebit_accounts]
  have := sumBal_insert_some (m := st.accounts) (k := a)
    ⟨(st.account a).balance - v, (st.account a).nonce⟩ hfind
  rw [account_eq_of_find? hfind] at this
  simp at this
  have hle := find?_balance_le_sumBal hfind
  rw [account_eq_of_find? hfind]
  omega

theorem sumBal_specIncNonce (st : TokenState) (a : Account) :
    sumBal (specIncNonce st a).accounts = sumBal st.accounts := by
  rw [specIncNonce_accounts]
  cases hfind : AMap.find? st.accounts a with
  | none =>
    have := sumBal_insert_none (m := st.accounts) (k := a)
      ⟨(st.account a).balance, (st.account a).nonce + 1⟩ hfind
    rw [this, account_empty_of_find? hfind]
    simp [AccountInfo.EMPTY]
  | some w =>
    have := sumBal_insert_some (m := st.accounts) (k := a)
      ⟨(st.account a).balance, (st.account a).nonce + 1⟩ hfind
    rw [account_eq_of_find? hfind] at this
    simp at this
    rw [account_eq_of_find? hfind]
    omega

theorem nonces_bounded_insert {m : AMap Account AccountInfo} {k : Account} {v : AccountInfo}
    (hm : ∀ p ∈ m, p.2.nonce < U64LIMIT) (hv : v.nonce < U64LIMIT) :
    ∀ p ∈ AMap.insert m k v, p.2.nonce < U64LIMIT := by
  intro p hp
  rcases AMap.mem_insert hp with h | h
  · exact hm p h
  · rw [h]; exact hv

theorem find?_isSome_insert {α β : Type} [DecidableEq α] {m : AMap α β} {k o : α} {v : β}
    (h : (AMap.find? m o).isSome = true) :
    (AMap.find? (AMap.insert m k v) o).isSome = true := by
  rw [AMap.find?_insert]
  by_cases hk : k = o <;> simp [hk, h]

/-! ### Success characterizations of the operations -/

/-- A successful `transfer` implies all four checks passed (in particular the
checked nonce increment fit), the credit fit, the acceptance call succeeded
when the recipient is a contract, and the post-state is exactly the spec's
effect sequence: debit `from`, increment `from.nonce`, credit `to`. -/
theorem transfer_ok_elim {h : Host} {st st' : TokenState} {t : Transfer}
    (H : TokenState.transfer h st t = .ok st') :
    ∃ fa, AMap.find? st.accounts (Account.External t.from_pk) = some fa ∧
      t.value ≤ fa.balance ∧
      fa.nonce + 1 < U64LIMIT ∧
      t.nonce = fa.nonce + 1 ∧
      h.verifyTransfer t = true ∧
      (((specIncNonce (specDebit st (Account.External t.from_pk) t.value)
          (Account.External t.from_pk)).account t.to_acc).balance + t.value < U64LIMIT) ∧
      (∀ c, t.to_acc = Account.Contract c →
        h.callOk c ⟨Account.External t.from_pk, t.value⟩ = true) ∧
      st' = specCredit (specIncNonce (specDebit st (Account.External t.from_pk) t.value)
              (Account.External t.from_pk)) t.to_acc t.value := by
  simp only [TokenState.transfer] at H
  cases hfind : AMap.find? st.accounts (Account.External t.from_pk) with
  | none => rw [hfind] at H; simp at H
  | some fa =>
    rw [hfind] at H
    simp only at H
    by_cases hbal : fa.balance < t.value
    · rw [if_pos hbal] at H; simp at H
    rw [if_neg hbal] at H
    by_cases hov : fa.nonce + 1 < U64LIMIT
    · rw [show checkedAdd fa.nonce 1 = some (fa.nonce + 1) by simp [checkedAdd, hov]] at H
      simp only at H
      by_cases hn : t.nonce = fa.nonce + 1
      · rw [if_neg (by simp [hn])] at H
        by_cases hv : h.verifyTransfer t
        · rw [if_neg (by simp [hv])] at H
          have hstate :
              specIncNonce (specDebit st (Account.External t.from_pk) t.value)
                (Account.External t.from_pk) =
              TokenState.mk
                (AMap.insert st.accounts (Account.External t.from_pk)
                  ⟨fa.balance - t.value, fa.nonce + 1⟩) st.allowances st.supply := by
            rw [specIncNonce_specDebit, account_eq_of_find? hfind]
          refine ⟨fa, rfl, Nat.le_of_not_lt hbal, hov, hn, by simp [hv], ?_⟩
          rw [hstate]
          have haccount :
              (TokenState.mk
                (AMap.insert st.accounts (Account.External t.from_pk)
                  ⟨fa.balance - t.value, fa.nonce + 1⟩) st.allowances st.supply).account t.to_acc
              = (AMap.find?
                  (AMap.insert st.accounts (Account.External t.from_pk)
                    ⟨fa.balance - t.value, fa.nonce + 1⟩) t.to_acc).getD AccountInfo.EMPTY := rfl
          rw [haccount]
          cases hcred : checkedAdd
              ((AMap.find?
                (AMap.insert st.accounts (Account.External t.from_pk)
                  ⟨fa.balance - t.value, fa.nonce + 1⟩) t.to_acc).getD AccountInfo.EMPTY).balance
              t.value with
          | none =>
            rw [hcred] at H
            simp at H
          | some newBal =>
            rw [hcred] at H
            have hcredlt :
                ((AMap.find?
                  (AMap.insert st.accounts (Account.External t.from_pk)
                    ⟨fa.balance - t.value, fa.nonce + 1⟩) t.to_acc).getD
                      AccountInfo.EMPTY).balance + t.value < U64LIMIT := by
              by_contra hc
              simp [checkedAdd, hc] at hcred
            have hnewBal : newBal =
                ((AMap.find?
                  (AMap.insert st.accounts (Account.External t.from_pk)
                    ⟨fa.balance - t.value, fa.nonce + 1⟩) t.to_acc).getD
                      AccountInfo.EMPTY).balance + t.value := by
              simp [checkedAdd, hcredlt] at hcred
              omega
            refine ⟨hcredlt, ?_⟩
            have hpost :
                specCredit (TokenState.mk
                  (AMap.insert st.accounts (Account.External t.from_pk)
                    ⟨fa.balance - t.value, fa.nonce + 1⟩) st.allowances st.supply)
                  t.to_acc t.value =
                TokenState.mk
                  (AMap.insert
                    (AMap.insert st.accounts (Account.External t.from_pk)
                      ⟨fa.balance - t.value, fa.nonce + 1⟩) t.to_acc
                    ⟨newBal,
                     ((AMap.find?
                       (AMap.insert st.accounts (Account.External t.from_pk)
                         ⟨fa.balance - t.value, fa.nonce + 1⟩) t.to_acc).getD
                           AccountInfo.EMPTY).nonce⟩) st.allowances st.supply := by
              simp [specCredit, TokenState.account, hnewBal]
            rw [hpost]
            cases hto : t.to_acc with
            | External pk =>
              rw [hto] at H
              simp only at H
              cases H
              exact ⟨fun c hc => by simp at hc, rfl⟩
            | Contract c =>
              rw [hto] at H
              simp only at H
              by_cases hcall : h.callOk c ⟨Account.External t.from_pk, t.value⟩
              · rw [if_pos hcall] at H
                cases H
                refine ⟨fun c' hc' => ?_, rfl⟩
                cases hc'
                simpa using hcall
              · rw [if_neg hcall] at H; simp at H
        · rw [if_pos (by simp [hv])] at H; simp at H
      · rw [if_pos (by simp [hn])] at H; simp at H
    · simp [checkedAdd, hov] at H

/-- A successful `transfer_from` implies the spender authentication passed,
the allowance chain was present and sufficient, the owner existed with enough
balance, the credit fit, the acceptance call succeeded when the recipient is
a contract, and the post-state is exactly the spec's effect sequence applied
to the spender-nonce-incremented state: decrement the allowance, debit the
owner, credit `to`. -/
theorem transfer_from_ok_elim {h : Host} {st st' : TokenState} {t : TransferFrom}
    (H : TokenState.transfer_from h st t = .ok st') :
    (st.account (Account.External t.spender)).nonce + 1 < U64LIMIT ∧
    t.nonce = (st.account (Account.External t.spender)).nonce + 1 ∧
    h.verifyTransferFrom t = true ∧
    ∃ oa amt ow,
      AMap.find? st.allowances t.owner = some oa ∧
      AMap.find? oa (Account.External t.spender) = some amt ∧
      t.value ≤ amt ∧
      AMap.find? (specIncNonce st (Account.External t.spender)).accounts t.owner = some ow ∧
      t.value ≤ ow.balance ∧
      (((specDebit (specDecAllowance (specIncNonce st (Account.External t.spender))
          t.owner (Account.External t.spender) t.value) t.owner t.value).account
            t.to_acc).balance + t.value < U64LIMIT) ∧
      (∀ c, t.to_acc = Account.Contract c → h.callOk c ⟨t.owner, t.value⟩ = true) ∧
      st' = specCredit (specDebit (specDecAllowance
              (specIncNonce st (Account.External t.spender))
              t.owner (Account.External t.spender) t.value) t.owner t.value) t.to_acc t.value := by
  have hsa : (AMap.find? st.accounts (Account.External t.spender)).getD AccountInfo.EMPTY
      = st.account (Account.External t.spender) := rfl
  have hst1 :
      specIncNonce st (Account.External t.spender) =
      TokenState.mk
        (AMap.insert st.accounts (Account.External t.spender)
          ⟨(st.account (Account.External t.spender)).balance,
           (st.account (Account.External t.spender)).nonce + 1⟩)
        st.allowances st.supply := by
    rw [specIncNonce]
  simp only [TokenState.transfer_from] at H
  rw [hsa] at H
  rw [hst1]
  generalize hsagen : st.account (Account.External t.spender) = sa at H hst1 ⊢
  by_cases hov : sa.nonce + 1 < U64LIMIT
  · rw [show checkedAdd sa.nonce 1 = some (sa.nonce + 1) by simp [checkedAdd, hov]] at H
    simp only at H
    by_cases hn : t.nonce = sa.nonce + 1
    · rw [if_neg (by simp [hn])] at H
      by_cases hv : h.verifyTransferFrom t
      · rw [if_neg (by simp [hv])] at H
        rw [AMap.insert_insert_same] at H
        refine ⟨hov, hn, by simp [hv], ?_⟩
        cases hoa : AMap.find? st.allowances t.owner with
        | none => rw [hoa] at H; simp at H
        | some oa =>
          rw [hoa] at H
          simp only at H
          cases hamt : AMap.find? oa (Account.External t.spender) with
          | none => rw [hamt] at H; simp at H
          | some amt =>
            rw [hamt] at H
            simp only at H
            by_cases hval : t.value > amt
            · rw [if_pos hval] at H; simp at H
            rw [if_neg hval] at H
            cases how : AMap.find?
                (AMap.insert st.accounts (Account.External t.spender)
                  ⟨sa.balance, sa.nonce + 1⟩) t.owner with
            | none => rw [how] at H; simp at H
            | some ow =>
              rw [how] at H
              simp only at H
              by_cases hob : ow.balance < t.value
              · rw [if_pos hob] at H; simp at H
              rw [if_neg hob] at H
              refine ⟨oa, amt, ow, ?_, ?_, Nat.le_of_not_lt hval, ?_,
                Nat.le_of_not_lt hob, ?_⟩
              · exact rfl
              · exact hamt
              · exact rfl
              have hdec :
                  specDecAllowance (TokenState.mk
                    (AMap.insert st.accounts (Account.External t.spender)
                      ⟨sa.balance, sa.nonce + 1⟩)
                    st.allowances st.supply) t.owner (Account.External t.spender) t.value =
                  TokenState.mk
                    (AMap.insert st.accounts (Account.External t.spender)
                      ⟨sa.balance, sa.nonce + 1⟩)
                    (AMap.insert st.allowances t.owner
                      (AMap.insert oa (Account.External t.spender) (amt - t.value)))
                    st.supply := by
                simp [specDecAllowance, specSetAllowance, TokenState.allowance, hoa, hamt]
              rw [hdec]
              have hdeb :
                  specDebit (TokenState.mk
                    (AMap.insert st.accounts (Account.External t.spender)
                      ⟨sa.balance, sa.nonce + 1⟩)
                    (AMap.insert st.allowances t.owner
                      (AMap.insert oa (Account.External t.spender) (amt - t.value)))
                    st.supply) t.owner t.value =
                  TokenState.mk
                    (AMap.insert
                      (AMap.insert st.accounts (Account.External t.spender)
                        ⟨sa.balance, sa.nonce + 1⟩)
                      t.owner ⟨ow.balance - t.value, ow.nonce⟩)
                    (AMap.insert st.allowances t.owner
                      (AMap.insert oa (Account.External t.spender) (amt - t.value)))
                    st.supply := by
                simp [specDebit, TokenState.account, how]
              rw [hdeb]
              cases hcred : checkedAdd
                  ((AMap.find?
                    (AMap.insert
                      (AMap.insert st.accounts (Account.External t.spender)
                        ⟨sa.balance, sa.nonce + 1⟩)
                      t.owner ⟨ow.balance - t.value, ow.nonce⟩) t.to_acc).getD
                        AccountInfo.EMPTY).balance t.value with
              | none => rw [hcred] at H; simp at H
              | some newBal =>
                rw [hcred] at H
                have hcredlt :
                    ((AMap.find?
                      (AMap.insert
                        (AMap.insert st.accounts (Account.External t.spender)
                          ⟨sa.balance, sa.nonce + 1⟩)
                        t.owner ⟨ow.balance - t.value, ow.nonce⟩) t.to_acc).getD
                          AccountInfo.EMPTY).balance + t.value < U64LIMIT := by
                  by_contra hc
                  simp [checkedAdd, hc] at hcred
                have hnewBal : newBal =
                    ((AMap.find?
                      (AMap.insert
                        (AMap.insert st.accounts (Account.External t.spender)
                          ⟨sa.balance, sa.nonce + 1⟩)
                        t.owner ⟨ow.balance - t.value, ow.nonce⟩) t.to_acc).getD
                          AccountInfo.EMPTY).balance + t.value := by
                  simp [checkedAdd, hcredlt] at hcred
                  omega
                refine ⟨hcredlt, ?_⟩
                have hpost :
                    specCredit (TokenState.mk
                      (AMap.insert
                        (AMap.insert st.accounts (Account.External t.spender)
                          ⟨sa.balance, sa.nonce + 1⟩)
                        t.owner ⟨ow.balance - t.value, ow.nonce⟩)
                      (AMap.insert st.allowances t.owner
                        (AMap.insert oa (Account.External t.spender) (amt - t.value)))
                      st.supply) t.to_acc t.value =
                    TokenState.mk
                      (AMap.insert
                        (AMap.insert
                          (AMap.insert st.accounts (Account.External t.spender)
                            ⟨sa.balance, sa.nonce + 1⟩)
                          t.owner ⟨ow.balance - t.value, ow.nonce⟩)
                        t.to_acc
                        ⟨newBal,
                         ((AMap.find?
                           (AMap.insert
                             (AMap.insert st.accounts (Account.External t.spender)
                               ⟨sa.balance, sa.nonce + 1⟩)
                             t.owner ⟨ow.balance - t.value, ow.nonce⟩) t.to_acc).getD
                               AccountInfo.EMPTY).nonce⟩)
                      (AMap.insert st.allowances t.owner
                        (AMap.insert oa (Account.External t.spender) (amt - t.value)))
                      st.supply := by
                  simp [specCredit, TokenState.account, hnewBal]
                rw [hpost]
                cases hto : t.to_acc with
                | External pk =>
                  rw [hto] at H
                  simp only at H
                  cases H
                  exact ⟨fun c hc => by simp at hc, rfl⟩
                | Contract c =>
                  rw [hto] at H
                  simp only at H
                  by_cases hcall : h.callOk c ⟨t.owner, t.value⟩
                  · rw [if_pos hcall] at H
                    cases H
                    refine ⟨fun c' hc' => ?_, rfl⟩
                    cases hc'
                    simpa using hcall
                  · rw [if_neg hcall] at H; simp at H
      · rw [if_pos (by simp [hv])] at H; simp at H
    · rw [if_pos (by simp [hn])] at H; simp at H
  · simp [checkedAdd, hov] at H

/-- A successful `approve` implies the owner authentication passed and the
post-state is the owner-nonce-incremented state with the `(owner, spender)`
allowance *set* to the requested value. -/
theorem approve_ok_elim {h : Host} {st st' : TokenState} {a : Approve}
    (H : TokenState.approve h st a = .ok st') :
    (st.account (Account.External a.owner)).nonce + 1 < U64LIMIT ∧
    a.nonce = (st.account (Account.External a.owner)).nonce + 1 ∧
    h.verifyApprove a = true ∧
    st' = specSetAllowance (specIncNonce st (Account.External a.owner))
            (Account.External a.owner) a.spender a.value := by
  have hsa : (AMap.find? st.accounts (Account.External a.owner)).getD AccountInfo.EMPTY
      = st.account (Account.External a.owner) := rfl
  have hst1 :
      specIncNonce st (Account.External a.owner) =
      TokenState.mk
        (AMap.insert st.accounts (Account.External a.owner)
          ⟨(st.account (Account.External a.owner)).balance,
           (st.account (Account.External a.owner)).nonce + 1⟩)
        st.allowances st.supply := by
    rw [specIncNonce]
  simp only [TokenState.approve] at H
  rw [hsa] at H
  rw [hst1]
  generalize hsagen : st.account (Account.External a.owner) = sa at H hst1 ⊢
  by_cases hov : sa.nonce + 1 < U64LIMIT
  · rw [show checkedAdd sa.nonce 1 = some (sa.nonce + 1) by simp [checkedAdd, hov]] at H
    simp only at H
    by_cases hn : a.nonce = sa.nonce + 1
    · rw [if_neg (by simp [hn])] at H
      by_cases hv : h.verifyApprove a
      · rw [if_neg (by simp [hv])] at H
        rw [AMap.insert_insert_same] at H
        cases H
        refine ⟨hov, hn, by simp [hv], ?_⟩
        rw [specSetAllowance]
      · rw [if_pos (by simp [hv])] at H; simp at H
    · rw [if_pos (by simp [hn])] at H; simp at H
  · simp [checkedAdd, hov] at H

/-- A successful `transfer_from_contract` implies the host attested a calling
contract; that contract had a record with sufficient balance; the credit fit;
the acceptance call succeeded when the recipient is a contract; and the
post-state is exactly: debit the caller, credit `to`. The request's `from`
field plays no role. -/
theorem transfer_from_contract_ok_elim {h : Host} {st st' : TokenState}
    {t : TransferFromContract}
    (H : TokenState.transfer_from_contract h st t = .ok st') :
    ∃ cid ca, h.caller = some cid ∧
      AMap.find? st.accounts (Account.Contract cid) = some ca ∧
      t.value ≤ ca.balance ∧
      (((specDebit st (Account.Contract cid) t.value).account t.to_acc).balance + t.value
        < U64LIMIT) ∧
      (∀ c, t.to_acc = Account.Contract c → h.callOk c ⟨Account.Contract cid, t.value⟩ = true) ∧
      st' = specCredit (specDebit st (Account.Contract cid) t.value) t.to_acc t.value := by
  simp only [TokenState.transfer_from_contract] at H
  cases hc : h.caller with
  | none => rw [hc] at H; simp at H
  | some cid =>
    rw [hc] at H
    simp only at H
    cases hfind : AMap.find? st.accounts (Account.Contract cid) with
    | none => rw [hfind] at H; simp at H
    | some ca =>
      rw [hfind] at H
      simp only at H
      by_cases hbal : ca.balance < t.value
      · rw [if_pos hbal] at H; simp at H
      rw [if_neg hbal] at H
      refine ⟨cid, ca, rfl, ?_, Nat.le_of_not_lt hbal, ?_⟩
      · first
        | exact rfl
        | exact hfind
      have hdeb :
          specDebit st (Account.Contract cid) t.value =
          TokenState.mk
            (AMap.insert st.accounts (Account.Contract cid)
              ⟨ca.balance - t.value, ca.nonce⟩)
            st.allowances st.supply := by
        simp [specDebit, account_eq_of_find? hfind]
      rw [hdeb]
      cases hcred : checkedAdd
          ((AMap.find?
            (AMap.insert st.accounts (Account.Contract cid)
              ⟨ca.balance - t.value, ca.nonce⟩) t.to_acc).getD
                AccountInfo.EMPTY).balance t.value with
      | none => rw [hcred] at H; simp at H
      | some newBal =>
        rw [hcred] at H
        have hcredlt :
            ((AMap.find?
              (AMap.insert st.accounts (Account.Contract cid)
                ⟨ca.balance - t.value, ca.nonce⟩) t.to_acc).getD
                  AccountInfo.EMPTY).balance + t.value < U64LIMIT := by
          by_contra hcc
          simp [checkedAdd, hcc] at hcred
        have hnewBal : newBal =
            ((AMap.find?
              (AMap.insert st.accounts (Account.Contract cid)
                ⟨ca.balance - t.value, ca.nonce⟩) t.to_acc).getD
                  AccountInfo.EMPTY).balance + t.value := by
          simp [checkedAdd, hcredlt] at hcred
          omega
        refine ⟨hcredlt, ?_⟩
        have hpost :
            specCredit (TokenState.mk
              (AMap.insert st.accounts (Account.Contract cid)
                ⟨ca.balance - t.value, ca.nonce⟩)
              st.allowances st.supply) t.to_acc t.value =
            TokenState.mk
              (AMap.insert
                (AMap.insert st.accounts (Account.Contract cid)
                  ⟨ca.balance - t.value, ca.nonce⟩)
                t.to_acc
                ⟨newBal,
                 ((AMap.find?
                   (AMap.insert st.accounts (Account.Contract cid)
                     ⟨ca.balance - t.value, ca.nonce⟩) t.to_acc).getD
                       AccountInfo.EMPTY).nonce⟩)
              st.allowances st.supply := by
          simp [specCredit, TokenState.account, hnewBal]
        rw [hpost]
        cases hto : t.to_acc with
        | External pk =>
          rw [hto] at H
          simp only at H
          cases H
          exact ⟨fun c hc' => by simp at hc', rfl⟩
        | Contract c =>
          rw [hto] at H
          simp only at H
          by_cases hcall : h.callOk c ⟨Account.Contract cid, t.value⟩
          · rw [if_pos hcall] at H
            cases H
            refine ⟨fun c' hc' => ?_, rfl⟩
            cases hc'
            simpa using hcall
          · rw [if_neg hcall] at H; simp at H

/-! ### Account views of the effect transformers -/

theorem AMap.find?_insert_self {α β : Type} [DecidableEq α] (m : AMap α β) (k : α) (v : β) :
    AMap.find? (AMap.insert m k v) k = some v := by
  rw [AMap.find?_insert]; simp

theorem AMap.find?_mem {α β : Type} [DecidableEq α] {m : AMap α β} {k : α} {v : β}
    (h : AMap.find? m k = some v) : (k, v) ∈ m := by
  induction m with
  | nil => simp [AMap.find?] at h
  | cons p rest ih =>
    obtain ⟨k', v'⟩ := p
    by_cases hk : k' = k
    · subst hk
      simp [AMap.find?] at h
      simp [h]
    · simp [AMap.find?, hk] at h
      simp [ih h]

theorem account_nonce_lt {st : TokenState}
    (h : ∀ p ∈ st.accounts, p.2.nonce < U64LIMIT) (a : Account) :
    (st.account a).nonce < U64LIMIT := by
  cases hfind : AMap.find? st.accounts a with
  | none => rw [account_empty_of_find? hfind]; norm_num [AccountInfo.EMPTY, U64LIMIT]
  | some w => rw [account_eq_of_find? hfind]; exact h (a, w) (AMap.find?_mem hfind)

theorem account_specDebit (st : TokenState) (a : Account) (v : Nat) (b : Account) :
    (specDebit st a v).account b =
      if a = b then ⟨(st.account a).balance - v, (st.account a).nonce⟩ else st.account b := by
  show ((AMap.find? (specDebit st a v).accounts b).getD AccountInfo.EMPTY) = _
  rw [specDebit_accounts, AMap.find?_insert]
  split <;> rfl

theorem account_specIncNonce (st : TokenState) (a : Account) (b : Account) :
    (specIncNonce st a).account b =
      if a = b then ⟨(st.account a).balance, (st.account a).nonce + 1⟩ else st.account b := by
  show ((AMap.find? (specIncNonce st a).accounts b).getD AccountInfo.EMPTY) = _
  rw [specIncNonce_accounts, AMap.find?_insert]
  split <;> rfl

theorem account_specCredit (st : TokenState) (a : Account) (v : Nat) (b : Account) :
    (specCredit st a v).account b =
      if a = b then ⟨(st.account a).balance + v, (st.account a).nonce⟩ else st.account b := by
  show ((AMap.find? (specCredit st a v).accounts b).getD AccountInfo.EMPTY) = _
  rw [specCredit_accounts, AMap.find?_insert]
  split <;> rfl

theorem supply_specDebit (st : TokenState) (a : Account) (v : Nat) :
    (specDebit st a v).supply = st.supply := rfl

theorem supply_specIncNonce (st : TokenState) (a : Account) :
    (specIncNonce st a).supply = st.supply := rfl

theorem supply_specCredit (st : TokenState) (a : Account) (v : Nat) :
    (specCredit st a v).supply = st.supply := rfl

theorem allowances_specDebit (st : TokenState) (a : Account) (v : Nat) :
    (specDebit st a v).allowances = st.allowances := rfl

theorem allowances_specIncNonce (st : TokenState) (a : Account) :
    (specIncNonce st a).allowances = st.allowances := rfl

theorem allowances_specCredit (st : TokenState) (a : Account) (v : Nat) :
    (specCredit st a v).allowances = st.allowances := rfl

/-! ### Invariant preservation -/

theorem inv_empty : Inv TokenState.empty := by
  refine ⟨rfl, by norm_num [TokenState.empty, U64LIMIT], ?_, ?_⟩
  · intro p hp; simp [TokenState.empty] at hp
  · intro o oa s amt h1 _; simp [TokenState.empty, AMap.find?] at h1

theorem inv_initStep {st st' : TokenState} {p : Account × Nat}
    (hInv : Inv st) (H : TokenState.initStep st p = .ok st') : Inv st' := by
  obtain ⟨hsum, hsup, hnon, hallow⟩ := hInv
  simp only [TokenState.initStep] at H
  cases hb : checkedAdd ((AMap.find? st.accounts p.1).getD AccountInfo.EMPTY).balance p.2 with
  | none => rw [hb] at H; simp at H
  | some newBal =>
    rw [hb] at H
    simp only at H
    cases hs : checkedAdd st.supply p.2 with
    | none => rw [hs] at H; simp at H
    | some newSupply =>
      rw [hs] at H
      simp only at H
      cases H
      have hsup' : newSupply = st.supply + p.2 ∧ st.supply + p.2 < U64LIMIT := by
        simp [checkedAdd] at hs
        constructor
        · omega
        · by_contra hc; simp [hc] at hs
      refine ⟨?_, ?_, ?_, ?_⟩
      · show newSupply = sumBal (AMap.insert st.accounts p.1 _)
        cases hfind : AMap.find? st.accounts p.1 with
        | none =>
          rw [sumBal_insert_none _ hfind]
          rw [hfind] at hb
          simp [AccountInfo.EMPTY, checkedAdd] at hb
          have : newBal = p.2 := by omega
          simp [hfind, AccountInfo.EMPTY, this]
          omega
        | some w =>
          have hsb := sumBal_insert_some (m := st.accounts) (k := p.1)
            (⟨newBal, w.nonce⟩ : AccountInfo) hfind
          rw [hfind] at hb
          simp only [Option.getD_some] at hb ⊢
          simp [checkedAdd] at hb
          simp at hsb
          omega
      · exact hsup'.1 ▸ hsup'.2
      · apply nonces_bounded_insert hnon
        show ((AMap.find? st.accounts p.1).getD AccountInfo.EMPTY).nonce < U64LIMIT
        exact account_nonce_lt hnon p.1
      · intro o oa s amt h1 h2
        exact find?_isSome_insert (hallow o oa s amt h1 h2)

theorem inv_init {st : TokenState} {l : List (Account × Nat)} {st' : TokenState}
    (hInv : Inv st) (H : TokenState.init st l = .ok st') : Inv st' := by
  induction l generalizing st with
  | nil => simp [TokenState.init] at H; cases H; exact hInv
  | cons p rest ih =>
    simp only [TokenState.init] at H
    cases hstep : TokenState.initStep st p with
    | error e => rw [hstep] at H; simp at H
    | ok st1 =>
      rw [hstep] at H
      simp only at H
      exact ih (inv_initStep hInv hstep) H

theorem inv_transfer {h : Host} {st st' : TokenState} {t : Transfer}
    (hInv : Inv st) (H : TokenState.transfer h st t = .ok st') : Inv st' := by
  obtain ⟨hsum, hsup, hnon, hallow⟩ := hInv
  obtain ⟨fa, hfind, hval, hov, hn, hv, hcredlt, hcall, rfl⟩ := transfer_ok_elim H
  have hn1 : ∀ p ∈ (specDebit st (Account.External t.from_pk) t.value).accounts,
      p.2.nonce < U64LIMIT := by
    rw [specDebit_accounts]
    exact nonces_bounded_insert hnon (account_nonce_lt hnon _)
  have hn2 : ∀ p ∈ (specIncNonce (specDebit st (Account.External t.from_pk) t.value)
      (Account.External t.from_pk)).accounts, p.2.nonce < U64LIMIT := by
    rw [specIncNonce_accounts]
    apply nonces_bounded_insert hn1
    show ((specDebit st (Account.External t.from_pk) t.value).account
      (Account.External t.from_pk)).nonce + 1 < U64LIMIT
    rw [account_specDebit]
    simp [account_eq_of_find? hfind]
    exact hov
  refine ⟨?_, hsup, ?_, ?_⟩
  · show st.supply = sumBal _
    rw [sumBal_specCredit, sumBal_specIncNonce]
    have h1 := sumBal_specDebit t.value hfind hval
    omega
  · rw [specCredit_accounts]
    exact nonces_bounded_insert hn2 (account_nonce_lt hn2 _)
  · intro o oa s amt h1 h2
    rw [specCredit_accounts, specIncNonce_accounts, specDebit_accounts]
    exact find?_isSome_insert (find?_isSome_insert (find?_isSome_insert (hallow o oa s amt h1 h2)))

theorem accounts_specSetAllowance (st : TokenState) (o s : Account) (v : Nat) :
    (specSetAllowance st o s v).accounts = st.accounts := rfl

theorem supply_specSetAllowance (st : TokenState) (o s : Account) (v : Nat) :
    (specSetAllowance st o s v).supply = st.supply := rfl

theorem allowances_specSetAllowance (st : TokenState) (o s : Account) (v : Nat) :
    (specSetAllowance st o s v).allowances =
      AMap.insert st.allowances o
        (AMap.insert ((AMap.find? st.allowances o).getD []) s v) := rfl

theorem inv_transfer_from {h : Host} {st st' : TokenState} {t : TransferFrom}
    (hInv : Inv st) (H : TokenState.transfer_from h st t = .ok st') : Inv st' := by
  obtain ⟨hsum, hsup, hnon, hallow⟩ := hInv
  obtain ⟨hov, hn, hv, oa, amt, ow, hoa, hamt, hval, how, hob, hcredlt, hcall, rfl⟩ :=
    transfer_from_ok_elim H
  have haccDec : (specDecAllowance (specIncNonce st (Account.External t.spender))
      t.owner (Account.External t.spender) t.value).accounts
      = (specIncNonce st (Account.External t.spender)).accounts := rfl
  have howDec : AMap.find? (specDecAllowance (specIncNonce st (Account.External t.spender))
      t.owner (Account.External t.spender) t.value).accounts t.owner = some ow := by
    rw [haccDec]; exact how
  have hn1 : ∀ p ∈ (specIncNonce st (Account.External t.spender)).accounts,
      p.2.nonce < U64LIMIT := by
    rw [specIncNonce_accounts]
    exact nonces_bounded_insert hnon hov
  have hn2 : ∀ p ∈ (specDecAllowance (specIncNonce st (Account.External t.spender))
      t.owner (Account.External t.spender) t.value).accounts, p.2.nonce < U64LIMIT := by
    rw [haccDec]; exact hn1
  have hn3 : ∀ p ∈ (specDebit (specDecAllowance (specIncNonce st (Account.External t.spender))
      t.owner (Account.External t.spender) t.value) t.owner t.value).accounts,
      p.2.nonce < U64LIMIT := by
    rw [specDebit_accounts]
    exact nonces_bounded_insert hn2 (account_nonce_lt hn2 _)
  refine ⟨?_, hsup, ?_, ?_⟩
  · show st.supply = sumBal _
    rw [sumBal_specCredit]
    have h1 := sumBal_specDebit t.value howDec hob
    rw [haccDec, sumBal_specIncNonce] at h1
    have h2 : sumBal (specDebit (specDecAllowance (specIncNonce st (Account.External t.spender))
        t.owner (Account.External t.spender) t.value) t.owner t.value).accounts + t.value
        = sumBal st.accounts := h1
    omega
  · rw [specCredit_accounts]
    exact nonces_bounded_insert hn3 (account_nonce_lt hn3 _)
  · intro o oa' s amt' h1 h2
    rw [specCredit_accounts, specDebit_accounts, haccDec, specIncNonce_accounts]
    by_cases ho : o = t.owner
    · subst ho
      apply find?_isSome_insert
      rw [AMap.find?_insert_self]
      rfl
    · have hallows : (specCredit (specDebit (specDecAllowance
          (specIncNonce st (Account.External t.spender)) t.owner
          (Account.External t.spender) t.value) t.owner t.value) t.to_acc
          t.value).allowances =
          AMap.insert st.allowances t.owner
            (AMap.insert ((AMap.find? st.allowances t.owner).getD [])
              (Account.External t.spender) (st.allowance ⟨t.owner, Account.External t.spender⟩
                - t.value)) := rfl
      rw [hallows, AMap.find?_insert] at h1
      rw [if_neg (fun hh => ho hh.symm)] at h1
      exact find?_isSome_insert (find?_isSome_insert (find?_isSome_insert
        (hallow o oa' s amt' h1 h2)))

theorem inv_transfer_from_contract {h : Host} {st st' : TokenState} {t : TransferFromContract}
    (hInv : Inv st) (H : TokenState.transfer_from_contract h st t = .ok st') : Inv st' := by
  obtain ⟨hsum, hsup, hnon, hallow⟩ := hInv
  obtain ⟨cid, ca, hc, hfind, hval, hcredlt, hcall, rfl⟩ := transfer_from_contract_ok_elim H
  have hn1 : ∀ p ∈ (specDebit st (Account.Contract cid) t.value).accounts,
      p.2.nonce < U64LIMIT := by
    rw [specDebit_accounts]
    exact nonces_bounded_insert hnon (account_nonce_lt hnon _)
  refine ⟨?_, hsup, ?_, ?_⟩
  · show st.supply = sumBal _
    rw [sumBal_specCredit]
    have h1 := sumBal_specDebit t.value hfind hval
    omega
  · rw [specCredit_accounts]
    exact nonces_bounded_insert hn1 (account_nonce_lt hn1 _)
  · intro o oa s amt h1 h2
    rw [specCredit_accounts, specDebit_accounts]
    exact find?_isSome_insert (find?_isSome_insert (hallow o oa s amt h1 h2))

theorem inv_approve {h : Host} {st st' : TokenState} {a : Approve}
    (hInv : Inv st) (H : TokenState.approve h st a = .ok st') : Inv st' := by
  obtain ⟨hsum, hsup, hnon, hallow⟩ := hInv
  obtain ⟨hov, hn, hv, rfl⟩ := approve_ok_elim H
  refine ⟨?_, hsup, ?_, ?_⟩
  · show st.supply = sumBal _
    rw [accounts_specSetAllowance, sumBal_specIncNonce]
    exact hsum
  · rw [accounts_specSetAllowance, specIncNonce_accounts]
    exact nonces_bounded_insert hnon hov
  · intro o oa s amt h1 h2
    rw [accounts_specSetAllowance, specIncNonce_accounts]
    by_cases ho : o = Account.External a.owner
    · subst ho
      rw [AMap.find?_insert_self]
      rfl
    · rw [allowances_specSetAllowance, allowances_specIncNonce, AMap.find?_insert] at h1
      rw [if_neg (fun hh => ho hh.symm)] at h1
      exact find?_isSome_insert (hallow o oa s amt h1 h2)

/-- Every reachable state satisfies the invariant. -/
theorem reachable_inv {st : TokenState} (h : Reachable st) : Inv st := by
  induction h with
  | genesis l st H => exact inv_init inv_empty H
  | step_transfer h st st' t _ H ih => exact inv_transfer ih H
  | step_transfer_from h st st' t _ H ih => exact inv_transfer_from ih H
  | step_transfer_from_contract h st st' t _ H ih => exact inv_transfer_from_contract ih H
  | step_approve h st st' a _ H ih => exact inv_approve ih H

/-- The error reported by an operation's outcome, if any. -/
def errKind : TxResult → Option TokenError
  | .ok _ => none
  | .error (e, _) => some e

/-! ### Forward evaluation of `transfer`'s branches -/

theorem transfer_err_no_account {h : Host} {st : TokenState} {t : Transfer}
    (hfind : AMap.find? st.accounts (Account.External t.from_pk) = none) :
    TokenState.transfer h st t = .error (.NoSuchAccount, st) := by
  simp only [TokenState.transfer]
  rw [hfind]

theorem transfer_err_balance {h : Host} {st : TokenState} {t : Transfer} {fa : AccountInfo}
    (hfind : AMap.find? st.accounts (Account.External t.from_pk) = some fa)
    (hbal : fa.balance < t.value) :
    TokenState.transfer h st t = .error (.InsufficientBalance, st) := by
  simp only [TokenState.transfer]
  rw [hfind]
  simp only
  rw [if_pos hbal]

theorem transfer_err_nonce_overflow {h : Host} {st : TokenState} {t : Transfer}
    {fa : AccountInfo}
    (hfind : AMap.find? st.accounts (Account.External t.from_pk) = some fa)
    (hbal : ¬ fa.balance < t.value)
    (hov : ¬ fa.nonce + 1 < U64LIMIT) :
    TokenState.transfer h st t = .error (.Overflow, st) := by
  simp only [TokenState.transfer]
  rw [hfind]
  simp only
  rw [if_neg hbal, show checkedAdd fa.nonce 1 = none by simp [checkedAdd, hov]]

theorem transfer_err_nonce {h : Host} {st : TokenState} {t : Transfer} {fa : AccountInfo}
    (hfind : AMap.find? st.accounts (Account.External t.from_pk) = some fa)
    (hbal : ¬ fa.balance < t.value)
    (hov : fa.nonce + 1 < U64LIMIT)
    (hn : t.nonce ≠ fa.nonce + 1) :
    TokenState.transfer h st t = .error (.InvalidNonce, st) := by
  simp only [TokenState.transfer]
  rw [hfind]
  simp only
  rw [if_neg hbal, show checkedAdd fa.nonce 1 = some (fa.nonce + 1) by simp [checkedAdd, hov]]
  simp only
  rw [if_pos (by simp [hn])]

theorem transfer_err_sig {h : Host} {st : TokenState} {t : Transfer} {fa : AccountInfo}
    (hfind : AMap.find? st.accounts (Account.External t.from_pk) = some fa)
    (hbal : ¬ fa.balance < t.value)
    (hov : fa.nonce + 1 < U64LIMIT)
    (hn : t.nonce = fa.nonce + 1)
    (hv : h.verifyTransfer t = false) :
    TokenState.transfer h st t =
      .error (.InvalidSignature,
        TokenState.mk
          (AMap.insert st.accounts (Account.External t.from_pk)
            ⟨fa.balance - t.value, fa.nonce + 1⟩)
          st.allowances st.supply) := by
  simp only [TokenState.transfer]
  rw [hfind]
  simp only
  rw [if_neg hbal, show checkedAdd fa.nonce 1 = some (fa.nonce + 1) by simp [checkedAdd, hov]]
  simp only
  rw [if_neg (by simp [hn]), if_pos (by simp [hv])]

theorem transfer_err_credit_overflow {h : Host} {st : TokenState} {t : Transfer}
    {fa : AccountInfo}
    (hfind : AMap.find? st.accounts (Account.External t.from_pk) = some fa)
    (hbal : ¬ fa.balance < t.value)
    (hov : fa.nonce + 1 < U64LIMIT)
    (hn : t.nonce = fa.nonce + 1)
    (hv : h.verifyTransfer t = true)
    (hcred : ¬ ((AMap.find?
        (AMap.insert st.accounts (Account.External t.from_pk)
          ⟨fa.balance - t.value, fa.nonce + 1⟩) t.to_acc).getD
            AccountInfo.EMPTY).balance + t.value < U64LIMIT) :
    TokenState.transfer h st t =
      .error (.Overflow,
        TokenState.mk
          (AMap.insert st.accounts (Account.External t.from_pk)
            ⟨fa.balance - t.value, fa.nonce + 1⟩)
          st.allowances st.supply) := by
  simp only [TokenState.transfer]
  rw [hfind]
  simp only
  rw [if_neg hbal, show checkedAdd fa.nonce 1 = some (fa.nonce + 1) by simp [checkedAdd, hov]]
  simp only
  rw [if_neg (by simp [hn]), if_neg (by simp [hv])]
  rw [show checkedAdd ((AMap.find?
      (AMap.insert st.accounts (Account.External t.from_pk)
        ⟨fa.balance - t.value, fa.nonce + 1⟩) t.to_acc).getD
          AccountInfo.EMPTY).balance t.value = none by simp [checkedAdd, hcred]]

/-! ### Nonce views of the transformers -/

theorem nonce_specDebit (st : TokenState) (a : Account) (v : Nat) (b : Account) :
    ((specDebit st a v).account b).nonce = (st.account b).nonce := by
  rw [account_specDebit]
  split
  · next hab => subst hab; rfl
  · rfl

theorem nonce_specCredit (st : TokenState) (a : Account) (v : Nat) (b : Account) :
    ((specCredit st a v).account b).nonce = (st.account b).nonce := by
  rw [account_specCredit]
  split
  · next hab => subst hab; rfl
  · rfl

theorem account_specSetAllowance (st : TokenState) (o s : Account) (v : Nat) (b : Account) :
    (specSetAllowance st o s v).account b = st.account b := rfl

/-! ### Concrete hosts and states used in witnesses and counterexamples -/

/-- A host on which every signature verifies and every acceptance call
succeeds; contract `7` is the attested caller. -/
def trueHost : Host := ⟨fun _ => true, fun _ => true, fun _ => true, some 7, fun _ _ => true⟩

/-- A host on which no signature verifies. -/
def noSigHost : Host := ⟨fun _ => false, fun _ => false, fun _ => false, some 7, fun _ _ => true⟩

/-- Genesis state `{External 0 ↦ 1000}`. -/
def stGen : TokenState := ⟨[(Account.External 0, ⟨1000, 0⟩)], [], 1000⟩

/-- Genesis state holding a contract account `{Contract 7 ↦ 100}`. -/
def stCon : TokenState := ⟨[(Account.Contract 7, ⟨100, 0⟩)], [], 100⟩

/-! ### Claims -/

/-- C1: for every state reachable by genesis initialization followed by any
sequence of successful `transfer`, `transfer_from`, `approve`, and
`transfer_from_contract` operations, the stored total supply equals the sum
of all account balances in the registry. -/
theorem C1_supply_eq_sum {st : TokenState} (h : Reachable st) :
    st.supply = sumBal st.accounts :=
  (reachable_inv h).1

/-- C1 witness: the genesis state `{External 0 ↦ 1000}` is reachable and the
theorem applies to it. -/
theorem C1_supply_eq_sum_witness : stGen.supply = sumBal stGen.accounts :=
  C1_supply_eq_sum (Reachable.genesis [(Account.External 0, 1000)] stGen (by rfl))

/-- C2: whenever an operation fails — for any reason — the state observed by
callers afterwards (the host rolls the mutations back, `observe`) is exactly
the pre-state; this holds even though `transfer` applies the debit and the
nonce increment before verifying the signature, as the final conjunct
exhibits: a signature-rejected transfer panics in a state whose debit and
nonce increment have already been applied, and that differs from the
pre-state. -/
theorem C2_failure_is_invisible :
    (∀ (h : Host) (st : TokenState) (t : Transfer) (e : TokenError × TokenState),
        TokenState.transfer h st t = .error e →
          observe st (TokenState.transfer h st t) = st) ∧
    (∀ (h : Host) (st : TokenState) (t : TransferFrom) (e : TokenError × TokenState),
        TokenState.transfer_from h st t = .error e →
          observe st (TokenState.transfer_from h st t) = st) ∧
    (∀ (h : Host) (st : TokenState) (a : Approve) (e : TokenError × TokenState),
        TokenState.approve h st a = .error e →
          observe st (TokenState.approve h st a) = st) ∧
    (∀ (h : Host) (st : TokenState) (t : TransferFromContract) (e : TokenError × TokenState),
        TokenState.transfer_from_contract h st t = .error e →
          observe st (TokenState.transfer_from_contract h st t) = st) ∧
    (TokenState.transfer noSigHost stGen ⟨0, Account.External 1, 400, 1, 0⟩ =
        .error (.InvalidSignature,
          TokenState.mk [(Account.External 0, ⟨600, 1⟩)] [] 1000) ∧
      TokenState.mk [(Account.External 0, ⟨600, 1⟩)] [] 1000 ≠ stGen) := by
  refine ⟨?_, ?_, ?_, ?_, by rfl, by decide⟩
  · intro h st t e he; rw [he]; rfl
  · intro h st t e he; rw [he]; rfl
  · intro h st a e he; rw [he]; rfl
  · intro h st t e he; rw [he]; rfl

/-- C2 witness: a concrete rejected transfer (bad signature on the genesis
state) observed through the host rollback leaves the state unchanged. -/
theorem C2_failure_is_invisible_witness :
    observe stGen (TokenState.transfer noSigHost stGen ⟨0, Account.External 1, 400, 1, 0⟩)
      = stGen :=
  C2_failure_is_invisible.1 noSigHost stGen ⟨0, Account.External 1, 400, 1, 0⟩
    (.InvalidSignature, TokenState.mk [(Account.External 0, ⟨600, 1⟩)] [] 1000) (by rfl)

theorem account_specDecAllowance (st : TokenState) (o s : Account) (v : Nat) (b : Account) :
    (specDecAllowance st o s v).account b = st.account b := rfl

theorem initStep_nonce_zero {st st' : TokenState} {p : Account × Nat}
    (h0 : ∀ a, (st.account a).nonce = 0)
    (H : TokenState.initStep st p = .ok st') : ∀ a, (st'.account a).nonce = 0 := by
  simp only [TokenState.initStep] at H
  cases hb : checkedAdd ((AMap.find? st.accounts p.1).getD AccountInfo.EMPTY).balance p.2 with
  | none => rw [hb] at H; simp at H
  | some newBal =>
    rw [hb] at H
    simp only at H
    cases hs : checkedAdd st.supply p.2 with
    | none => rw [hs] at H; simp at H
    | some newSupply =>
      rw [hs] at H
      simp only at H
      cases H
      intro a
      show ((AMap.find? (AMap.insert st.accounts p.1 _) a).getD AccountInfo.EMPTY).nonce = 0
      rw [AMap.find?_insert]
      by_cases hp : p.1 = a
      · simp only [if_pos hp, Option.getD_some]
        exact h0 p.1
      · simp only [if_neg hp]
        exact h0 a

theorem init_nonce_zero {st0 st : TokenState} {l : List (Account × Nat)}
    (h0 : ∀ a, (st0.account a).nonce = 0)
    (H : TokenState.init st0 l = .ok st) : ∀ a, (st.account a).nonce = 0 := by
  induction l generalizing st0 with
  | nil => simp [TokenState.init] at H; cases H; exact h0
  | cons p rest ih =>
    simp only [TokenState.init] at H
    cases hstep : TokenState.initStep st0 p with
    | error e => rw [hstep] at H; simp at H
    | ok st1 =>
      rw [hstep] at H
      simp only at H
      exact ih (initStep_nonce_zero h0 hstep) H

/-- C3 counterexample: a successful `transfer_from_contract` performed *by*
contract `7` (the host-attested caller, with 100 tokens) leaves the caller's
nonce at 0 instead of raising it to 1 — the code never touches a nonce in
`transfer_from_contract`, refuting the claim at this input. -/
theorem C3_counterexample :
    TokenState.transfer_from_contract trueHost stCon ⟨none, Account.External 5, 40⟩ =
      .ok (TokenState.mk [(Account.Contract 7, ⟨60, 0⟩), (Account.External 5, ⟨40, 0⟩)] [] 100) ∧
    ((TokenState.mk [(Account.Contract 7, ⟨60, 0⟩), (Account.External 5, ⟨40, 0⟩)] [] 100).account
        (Account.Contract 7)).nonce =
      (stCon.account (Account.Contract 7)).nonce := ⟨by rfl, by rfl⟩

/-- C3 (amended): every account's nonce starts at 0 after genesis and
increases by exactly 1 for the authenticated party of each successful
`transfer` (the sender), `transfer_from` (the spender) and `approve` (the
owner), while no other account's nonce changes; `transfer_from_contract`
changes no nonce at all. -/
theorem C3_nonce_dynamics :
    (∀ (l : List (Account × Nat)) (st : TokenState),
        TokenState.init TokenState.empty l = .ok st → ∀ a, (st.account a).nonce = 0) ∧
    (∀ (h : Host) (st st' : TokenState) (t : Transfer),
        TokenState.transfer h st t = .ok st' →
          (st'.account (Account.External t.from_pk)).nonce
              = (st.account (Account.External t.from_pk)).nonce + 1 ∧
          ∀ a, a ≠ Account.External t.from_pk → (st'.account a).nonce = (st.account a).nonce) ∧
    (∀ (h : Host) (st st' : TokenState) (t : TransferFrom),
        TokenState.transfer_from h st t = .ok st' →
          (st'.account (Account.External t.spender)).nonce
              = (st.account (Account.External t.spender)).nonce + 1 ∧
          ∀ a, a ≠ Account.External t.spender → (st'.account a).nonce = (st.account a).nonce) ∧
    (∀ (h : Host) (st st' : TokenState) (a : Approve),
        TokenState.approve h st a = .ok st' →
          (st'.account (Account.External a.owner)).nonce
              = (st.account (Account.External a.owner)).nonce + 1 ∧
          ∀ b, b ≠ Account.External a.owner → (st'.account b).nonce = (st.account b).nonce) ∧
    (∀ (h : Host) (st st' : TokenState) (t : TransferFromContract),
        TokenState.transfer_from_contract h st t = .ok st' →
          ∀ a, (st'.account a).nonce = (st.account a).nonce) := by
  refine ⟨?_, ?_, ?_, ?_, ?_⟩
  · intro l st H a
    have h0 : ∀ b, (TokenState.empty.account b).nonce = 0 := fun _ => rfl
    exact init_nonce_zero h0 H a
  · intro h st st' t H
    obtain ⟨fa, hfind, _, _, _, _, _, _, rfl⟩ := transfer_ok_elim H
    constructor
    · rw [nonce_specCredit, account_specIncNonce, if_pos rfl]
      simp only
      rw [nonce_specDebit]
    · intro a ha
      rw [nonce_specCredit, account_specIncNonce, if_neg (fun hh => ha hh.symm),
        nonce_specDebit]
  · intro h st st' t H
    obtain ⟨_, _, _, oa, amt, ow, _, _, _, _, _, _, _, rfl⟩ := transfer_from_ok_elim H
    constructor
    · rw [nonce_specCredit, nonce_specDebit, account_specDecAllowance,
        account_specIncNonce, if_pos rfl]
    · intro a ha
      rw [nonce_specCredit, nonce_specDebit, account_specDecAllowance,
        account_specIncNonce, if_neg (fun hh => ha hh.symm)]
  · intro h st st' a H
    obtain ⟨_, _, _, rfl⟩ := approve_ok_elim H
    constructor
    · rw [account_specSetAllowance, account_specIncNonce, if_pos rfl]
    · intro b hb
      rw [account_specSetAllowance, account_specIncNonce, if_neg (fun hh => hb hh.symm)]
  · intro h st st' t H
    obtain ⟨cid, ca, _, _, _, _, _, rfl⟩ := transfer_from_contract_ok_elim H
    intro a
    rw [nonce_specCredit, nonce_specDebit]

/-- C3 witness: Scenario A's transfer raises the sender's nonce from 0 to 1. -/
theorem C3_nonce_dynamics_witness :
    ((TokenState.mk [(Account.External 0, ⟨600, 1⟩), (Account.External 1, ⟨400, 0⟩)] [] 1000).account
        (Account.External 0)).nonce = (stGen.account (Account.External 0)).nonce + 1 :=
  (C3_nonce_dynamics.2.1 trueHost stGen _ ⟨0, Account.External 1, 400, 1, 0⟩ (by rfl)).1

/-- C4: a `transfer` in which all checks pass produces exactly the spec's
effect sequence — debit `from.balance` by `value`, increment `from.nonce`,
credit `to.balance` by `value` (with `to`'s record implicitly created as the
empty record first when absent, as the per-account conjuncts state); and
Scenario A holds: from genesis `{Alice ↦ 1000}` a signed
`transfer(Alice → Bob, 500, nonce 1)` yields `Alice.balance = 500`,
`Bob.balance = 500`, `Alice.nonce = 1`. -/
theorem C4_transfer_effects :
    (∀ (h : Host) (st st' : TokenState) (t : Transfer),
        TokenState.transfer h st t = .ok st' →
          st' = specCredit (specIncNonce (specDebit st (Account.External t.from_pk) t.value)
                  (Account.External t.from_pk)) t.to_acc t.value ∧
          (t.to_acc ≠ Account.External t.from_pk →
            st'.account (Account.External t.from_pk)
                = ⟨(st.account (Account.External t.from_pk)).balance - t.value,
                   (st.account (Account.External t.from_pk)).nonce + 1⟩ ∧
            (st'.account t.to_acc).balance = (st.account t.to_acc).balance + t.value) ∧
          (AMap.find? st.accounts t.to_acc = none → t.to_acc ≠ Account.External t.from_pk →
            st'.account t.to_acc = ⟨t.value, 0⟩)) ∧
    (TokenState.transfer trueHost stGen ⟨0, Account.External 1, 500, 1, 0⟩ =
        .ok (TokenState.mk
          [(Account.External 0, ⟨500, 1⟩), (Account.External 1, ⟨500, 0⟩)] [] 1000) ∧
      (TokenState.mk [(Account.External 0, ⟨500, 1⟩), (Account.External 1, ⟨500, 0⟩)]
          [] 1000).account (Account.External 0) = ⟨500, 1⟩ ∧
      (TokenState.mk [(Account.External 0, ⟨500, 1⟩), (Account.External 1, ⟨500, 0⟩)]
          [] 1000).account (Account.External 1) = ⟨500, 0⟩) := by
  refine ⟨?_, by rfl, by rfl, by rfl⟩
  intro h st st' t H
  obtain ⟨fa, hfind, _, _, _, _, _, _, rfl⟩ := transfer_ok_elim H
  refine ⟨rfl, ?_, ?_⟩
  · intro hne
    constructor
    · rw [account_specCredit, if_neg hne, account_specIncNonce, if_pos rfl,
        account_specDebit, if_pos rfl]
    · rw [account_specCredit, if_pos rfl]
      simp only
      rw [account_specIncNonce, if_neg (fun hh => hne hh.symm),
        account_specDebit, if_neg (fun hh => hne hh.symm)]
  · intro habs hne
    rw [account_specCredit, if_pos rfl]
    have hmid : (specIncNonce (specDebit st (Account.External t.from_pk) t.value)
        (Account.External t.from_pk)).account t.to_acc = AccountInfo.EMPTY := by
      rw [account_specIncNonce, if_neg (fun hh => hne hh.symm),
        account_specDebit, if_neg (fun hh => hne hh.symm)]
      exact account_empty_of_find? habs
    rw [hmid]
    simp [AccountInfo.EMPTY]

/-- C4 witness: the effect-sequence equality at Scenario A's concrete input. -/
theorem C4_transfer_effects_witness :
    TokenState.mk [(Account.External 0, ⟨500, 1⟩), (Account.External 1, ⟨500, 0⟩)] [] 1000
      = specCredit (specIncNonce (specDebit stGen (Account.External 0) 500)
          (Account.External 0)) (Account.External 1) 500 :=
  ((C4_transfer_effects.1 trueHost stGen _ ⟨0, Account.External 1, 500, 1, 0⟩ (by rfl)).1)

theorem allowance_specSetAllowance_self (st : TokenState) (o s : Account) (v : Nat) :
    (specSetAllowance st o s v).allowance ⟨o, s⟩ = v := by
  simp [TokenState.allowance, allowances_specSetAllowance, AMap.find?_insert_self]

theorem allowance_congr {st1 st2 : TokenState} (h : st1.allowances = st2.allowances)
    (al : Allowance) : st1.allowance al = st2.allowance al := by
  simp [TokenState.allowance, h]

/-- Genesis `{External 0 ↦ 1000}` followed by `approve(owner 0, spender
External 5, 300, nonce 1)`: the state of Scenario C's first half. -/
def stApp : TokenState :=
  ⟨[(Account.External 0, ⟨1000, 1⟩)], [(Account.External 0, [(Account.External 5, 300)])], 1000⟩

/-- C5: in `transfer_from`, once the spender's nonce and signature are
authenticated, the remaining checks run in order — a missing `(owner,
spender)` allowance entry (either map level) is a fatal `NoAllowance`;
`value` above the allowance is `InsufficientAllowance`; an owner balance
below `value` is `InsufficientBalance` (on reachable states, where an owner
with an allowance entry always has a record); and a success produces exactly
the spec's effect sequence — decrement the allowance by `value` (the
remainder `amt - value` is left), debit the owner, credit `to`. -/
theorem C5_transfer_from_checks :
    ∀ (h : Host) (st : TokenState) (t : TransferFrom),
      t.nonce = (st.account (Account.External t.spender)).nonce + 1 →
      (st.account (Account.External t.spender)).nonce + 1 < U64LIMIT →
      h.verifyTransferFrom t = true →
      (AMap.find? st.allowances t.owner = none →
        errKind (TokenState.transfer_from h st t) = some .NoAllowance) ∧
      (∀ oa, AMap.find? st.allowances t.owner = some oa →
        AMap.find? oa (Account.External t.spender) = none →
        errKind (TokenState.transfer_from h st t) = some .NoAllowance) ∧
      (∀ oa amt, AMap.find? st.allowances t.owner = some oa →
        AMap.find? oa (Account.External t.spender) = some amt → amt < t.value →
        errKind (TokenState.transfer_from h st t) = some .InsufficientAllowance) ∧
      (∀ oa amt, Reachable st → AMap.find? st.allowances t.owner = some oa →
        AMap.find? oa (Account.External t.spender) = some amt → t.value ≤ amt →
        (st.account t.owner).balance < t.value →
        errKind (TokenState.transfer_from h st t) = some .InsufficientBalance) ∧
      (∀ oa amt st', AMap.find? st.allowances t.owner = some oa →
        AMap.find? oa (Account.External t.spender) = some amt →
        TokenState.transfer_from h st t = .ok st' →
        st' = specCredit (specDebit (specDecAllowance
                (specIncNonce st (Account.External t.spender)) t.owner
                (Account.External t.spender) t.value) t.owner t.value) t.to_acc t.value ∧
        st'.allowance ⟨t.owner, Account.External t.spender⟩ = amt - t.value ∧
        t.value ≤ amt) := by
  intro h st t hn hov hv
  have hsa : (AMap.find? st.accounts (Account.External t.spender)).getD AccountInfo.EMPTY
      = st.account (Account.External t.spender) := rfl
  have hpre : ∀ (G : TxResult → Prop),
      (∀ r, TokenState.transfer_from h st t = r → G r) → G (TokenState.transfer_from h st t) :=
    fun G hG => hG _ rfl
  refine ⟨?_, ?_, ?_, ?_, ?_⟩
  · intro hnone
    simp only [TokenState.transfer_from]
    rw [hsa, show checkedAdd (st.account (Account.External t.spender)).nonce 1
        = some ((st.account (Account.External t.spender)).nonce + 1) by simp [checkedAdd, hov]]
    simp only
    rw [if_neg (by simp [hn]), if_neg (by simp [hv]), hnone]
    rfl
  · intro oa hoa hinner
    simp only [TokenState.transfer_from]
    rw [hsa, show checkedAdd (st.account (Account.External t.spender)).nonce 1
        = some ((st.account (Account.External t.spender)).nonce + 1) by simp [checkedAdd, hov]]
    simp only
    rw [if_neg (by simp [hn]), if_neg (by simp [hv]), hoa]
    simp only
    rw [hinner]
    rfl
  · intro oa amt hoa hamt hlt
    simp only [TokenState.transfer_from]
    rw [hsa, show checkedAdd (st.account (Account.External t.spender)).nonce 1
        = some ((st.account (Account.External t.spender)).nonce + 1) by simp [checkedAdd, hov]]
    simp only
    rw [if_neg (by simp [hn]), if_neg (by simp [hv]), hoa]
    simp only
    rw [hamt]
    simp only
    rw [if_pos hlt]
    rfl
  · intro oa amt hr hoa hamt hle hbal
    have hsome := (reachable_inv hr).2.2.2 t.owner oa (Account.External t.spender) amt hoa hamt
    simp only [TokenState.transfer_from]
    rw [hsa, show checkedAdd (st.account (Account.External t.spender)).nonce 1
        = some ((st.account (Account.External t.spender)).nonce + 1) by simp [checkedAdd, hov]]
    simp only
    rw [if_neg (by simp [hn]), if_neg (by simp [hv]), hoa]
    simp only
    rw [hamt]
    simp only
    rw [if_neg (by omega), AMap.insert_insert_same, AMap.find?_insert]
    by_cases hos : Account.External t.spender = t.owner
    · rw [if_pos hos]
      simp only
      rw [if_pos (by rw [← hos] at hbal; exact hbal)]
      rfl
    · rw [if_neg hos]
      obtain ⟨ow, how⟩ := Option.isSome_iff_exists.mp hsome
      rw [how]
      simp only
      rw [if_pos (by rw [account_eq_of_find? how] at hbal; exact hbal)]
      rfl
  · intro oa amt st' hoa hamt H
    obtain ⟨hov', hn', hv', oa', amt', ow, hoa', hamt', hval', how', hob', _, _, rfl⟩ :=
      transfer_from_ok_elim H
    rw [hoa] at hoa'
    injection hoa' with h1
    subst h1
    rw [hamt] at hamt'
    injection hamt' with h2
    subst h2
    refine ⟨rfl, ?_, hval'⟩
    have hallows : (specCredit (specDebit (specDecAllowance
        (specIncNonce st (Account.External t.spender)) t.owner
        (Account.External t.spender) t.value) t.owner t.value) t.to_acc t.value).allowances
        = (specDecAllowance (specIncNonce st (Account.External t.spender)) t.owner
            (Account.External t.spender) t.value).allowances := rfl
    rw [allowance_congr hallows]
    have hamt1 : (specIncNonce st (Account.External t.spender)).allowance
        ⟨t.owner, Account.External t.spender⟩ = amt := by
      simp [TokenState.allowance, allowances_specIncNonce, hoa, hamt]
    rw [specDecAllowance, hamt1]
    exact allowance_specSetAllowance_self _ _ _ _

/-- The state after Scenario C's `transfer_from(spender 5, owner 0, to 2,
200, nonce 1)` on `stApp`. -/
def stTFpost : TokenState :=
  ⟨[(Account.External 0, ⟨800, 1⟩), (Account.External 5, ⟨0, 1⟩),
    (Account.External 2, ⟨200, 0⟩)],
   [(Account.External 0, [(Account.External 5, 100)])], 1000⟩

/-- C5 witness: Scenario C — after owner 0 approved spender 5 for 300, a
delegated spend of 200 succeeds and leaves the allowance at 100. -/
theorem C5_transfer_from_checks_witness :
    stTFpost.allowance ⟨Account.External 0, Account.External 5⟩ = 300 - 200 :=
  ((C5_transfer_from_checks trueHost stApp
      ⟨5, Account.External 0, Account.External 2, 200, 1, 0⟩
      (by rfl) (by decide) (by rfl)).2.2.2.2
    [(Account.External 5, 300)] 300 stTFpost (by rfl) (by rfl) (by rfl)).2.1

/-- C6: `transfer` validates its preconditions in order — missing `from`
record ⇒ `NoSuchAccount`; insufficient balance ⇒ `InsufficientBalance`;
wrong nonce ⇒ `InvalidNonce` (given the nonce increment itself fits in 64
bits, the regime the spec's overflow rule C9 carves out); failing signature
⇒ `InvalidSignature`; in particular, a request that both lacks balance and
carries a wrong nonce fails with `InsufficientBalance`. -/
theorem C6_transfer_check_order :
    ∀ (h : Host) (st : TokenState) (t : Transfer),
      (AMap.find? st.accounts (Account.External t.from_pk) = none →
        TokenState.transfer h st t = .error (.NoSuchAccount, st)) ∧
      (∀ fa, AMap.find? st.accounts (Account.External t.from_pk) = some fa →
        fa.balance < t.value →
        TokenState.transfer h st t = .error (.InsufficientBalance, st)) ∧
      (∀ fa, AMap.find? st.accounts (Account.External t.from_pk) = some fa →
        ¬ fa.balance < t.value → fa.nonce + 1 < U64LIMIT → t.nonce ≠ fa.nonce + 1 →
        TokenState.transfer h st t = .error (.InvalidNonce, st)) ∧
      (∀ fa, AMap.find? st.accounts (Account.External t.from_pk) = some fa →
        ¬ fa.balance < t.value → fa.nonce + 1 < U64LIMIT → t.nonce = fa.nonce + 1 →
        h.verifyTransfer t = false →
        errKind (TokenState.transfer h st t) = some .InvalidSignature) ∧
      (∀ fa, AMap.find? st.accounts (Account.External t.from_pk) = some fa →
        fa.balance < t.value → t.nonce ≠ fa.nonce + 1 →
        TokenState.transfer h st t = .error (.InsufficientBalance, st)) := by
  intro h st t
  refine ⟨?_, ?_, ?_, ?_, ?_⟩
  · intro hfind
    exact transfer_err_no_account hfind
  · intro fa hfind hbal
    exact transfer_err_balance hfind hbal
  · intro fa hfind hbal hov hn
    exact transfer_err_nonce hfind hbal hov hn
  · intro fa hfind hbal hov hn hv
    rw [transfer_err_sig hfind hbal hov hn hv]
    rfl
  · intro fa hfind hbal hn
    exact transfer_err_balance hfind hbal

/-- C6 witness: on the genesis state, a transfer that both lacks balance
(2000 > 1000) and has a wrong nonce (5 ≠ 1) fails with
`InsufficientBalance`. -/
theorem C6_transfer_check_order_witness :
    TokenState.transfer trueHost stGen ⟨0, Account.External 1, 2000, 5, 0⟩ =
      .error (.InsufficientBalance, stGen) :=
  (C6_transfer_check_order trueHost stGen ⟨0, Account.External 1, 2000, 5, 0⟩).2.2.2.2
    ⟨1000, 0⟩ (by rfl) (by decide) (by decide)

theorem approve_ok_intro {h : Host} {st : TokenState} {a : Approve}
    (hn : a.nonce = (st.account (Account.External a.owner)).nonce + 1)
    (hov : (st.account (Account.External a.owner)).nonce + 1 < U64LIMIT)
    (hv : h.verifyApprove a = true) :
    TokenState.approve h st a = .ok (specSetAllowance
      (specIncNonce st (Account.External a.owner)) (Account.External a.owner)
      a.spender a.value) := by
  have hsa : (AMap.find? st.accounts (Account.External a.owner)).getD AccountInfo.EMPTY
      = st.account (Account.External a.owner) := rfl
  simp only [TokenState.approve]
  rw [hsa, show checkedAdd (st.account (Account.External a.owner)).nonce 1
      = some ((st.account (Account.External a.owner)).nonce + 1) by simp [checkedAdd, hov]]
  simp only
  rw [if_neg (by simp [hn]), if_neg (by simp [hv]), AMap.insert_insert_same]
  rfl

/-- C7: a successful `approve(o, s, V, n)` *sets* the `(o, s)` allowance to
exactly `V` — overwriting any prior amount — and a subsequent successful
`approve(o, s, 0, n+1)` sets it back to 0. -/
theorem C7_approve_sets_allowance :
    ∀ (h : Host) (st st' : TokenState) (a : Approve),
      TokenState.approve h st a = .ok st' →
      st'.allowance ⟨Account.External a.owner, a.spender⟩ = a.value ∧
      ∀ (a2 : Approve), a2.owner = a.owner → a2.spender = a.spender → a2.value = 0 →
        a2.nonce = a.nonce + 1 → a.nonce + 1 < U64LIMIT → h.verifyApprove a2 = true →
        ∃ st'', TokenState.approve h st' a2 = .ok st'' ∧
          st''.allowance ⟨Account.External a.owner, a.spender⟩ = 0 := by
  intro h st st' a H
  obtain ⟨hov, hn, hv, rfl⟩ := approve_ok_elim H
  refine ⟨allowance_specSetAllowance_self _ _ _ _, ?_⟩
  intro a2 ho2 hs2 hv2 hn2 hov2 hver2
  have hacc : ((specSetAllowance (specIncNonce st (Account.External a.owner))
      (Account.External a.owner) a.spender a.value).account
        (Account.External a2.owner)).nonce = (st.account (Account.External a.owner)).nonce + 1 := by
    rw [ho2, account_specSetAllowance, account_specIncNonce, if_pos rfl]
  refine ⟨_, approve_ok_intro ?_ ?_ hver2, ?_⟩
  · rw [hacc, hn2, hn]
  · rw [hacc]
    rw [hn] at hov2
    omega
  · rw [ho2, hs2] at *
    rw [allowance_specSetAllowance_self, hv2]

/-- C7 witness: on genesis, `approve(0, External 5, 300, nonce 1)` makes
`allowance(0, External 5)` read exactly 300. -/
theorem C7_approve_sets_allowance_witness :
    stApp.allowance ⟨Account.External 0, Account.External 5⟩ = 300 :=
  (C7_approve_sets_allowance trueHost stGen stApp
    ⟨0, Account.External 5, 300, 1, 0⟩ (by rfl)).1

theorem transfer_from_contract_err_no_caller {h : Host} {st : TokenState}
    {t : TransferFromContract} (hc : h.caller = none) :
    TokenState.transfer_from_contract h st t = .error (.NoCaller, st) := by
  simp only [TokenState.transfer_from_contract]
  rw [hc]

theorem transfer_from_contract_err_no_account {h : Host} {st : TokenState}
    {t : TransferFromContract} {cid : Nat} (hc : h.caller = some cid)
    (hfind : AMap.find? st.accounts (Account.Contract cid) = none) :
    TokenState.transfer_from_contract h st t = .error (.NoSuchAccount, st) := by
  simp only [TokenState.transfer_from_contract]
  rw [hc]
  simp only
  rw [hfind]

theorem transfer_from_contract_err_balance {h : Host} {st : TokenState}
    {t : TransferFromContract} {cid : Nat} {ca : AccountInfo} (hc : h.caller = some cid)
    (hfind : AMap.find? st.accounts (Account.Contract cid) = some ca)
    (hbal : ca.balance < t.value) :
    TokenState.transfer_from_contract h st t = .error (.InsufficientBalance, st) := by
  simp only [TokenState.transfer_from_contract]
  rw [hc]
  simp only
  rw [hfind]
  simp only
  rw [if_pos hbal]

theorem transfer_from_contract_ok_cases {h : Host} {st : TokenState}
    {t : TransferFromContract} {cid : Nat} {ca : AccountInfo} (hc : h.caller = some cid)
    (hfind : AMap.find? st.accounts (Account.Contract cid) = some ca)
    (hbal : ¬ ca.balance < t.value)
    (hcred : ((AMap.find? (AMap.insert st.accounts (Account.Contract cid)
        ⟨ca.balance - t.value, ca.nonce⟩) t.to_acc).getD AccountInfo.EMPTY).balance
          + t.value < U64LIMIT)
    (hcall : ∀ c, t.to_acc = Account.Contract c →
      h.callOk c ⟨Account.Contract cid, t.value⟩ = true) :
    ∃ st', TokenState.transfer_from_contract h st t = .ok st' := by
  simp only [TokenState.transfer_from_contract]
  rw [hc]
  simp only
  rw [hfind]
  simp only
  rw [if_neg hbal]
  rw [show checkedAdd ((AMap.find? (AMap.insert st.accounts (Account.Contract cid)
      ⟨ca.balance - t.value, ca.nonce⟩) t.to_acc).getD AccountInfo.EMPTY).balance t.value
      = some (((AMap.find? (AMap.insert st.accounts (Account.Contract cid)
          ⟨ca.balance - t.value, ca.nonce⟩) t.to_acc).getD AccountInfo.EMPTY).balance
            + t.value) by simp [checkedAdd, hcred]]
  simp only
  cases hto : t.to_acc with
  | External pk => exact ⟨_, rfl⟩
  | Contract c =>
    simp only
    rw [if_pos (hcall c hto)]
    exact ⟨_, rfl⟩

/-- C8: `transfer_from_contract` always debits the host-attested module
caller, never an identity from the request (the `from` field is ignored:
first conjunct); it fails with `NoCaller` when the host reports none, with
`NoSuchAccount` when the caller has no record, and with
`InsufficientBalance` when the caller's balance is short; on success the
post-state is exactly: debit the caller, credit `to` — and on a reachable
state a caller with sufficient balance succeeds whenever the acceptance
callback does. -/
theorem C8_transfer_from_contract_caller :
    ∀ (h : Host) (st : TokenState) (t : TransferFromContract),
      (∀ f, TokenState.transfer_from_contract h st ⟨f, t.to_acc, t.value⟩
          = TokenState.transfer_from_contract h st t) ∧
      (h.caller = none →
        TokenState.transfer_from_contract h st t = .error (.NoCaller, st)) ∧
      (∀ cid, h.caller = some cid →
        AMap.find? st.accounts (Account.Contract cid) = none →
        TokenState.transfer_from_contract h st t = .error (.NoSuchAccount, st)) ∧
      (∀ cid ca, h.caller = some cid →
        AMap.find? st.accounts (Account.Contract cid) = some ca → ca.balance < t.value →
        TokenState.transfer_from_contract h st t = .error (.InsufficientBalance, st)) ∧
      (∀ cid st', h.caller = some cid →
        TokenState.transfer_from_contract h st t = .ok st' →
        st' = specCredit (specDebit st (Account.Contract cid) t.value) t.to_acc t.value) ∧
      (∀ cid ca, Reachable st → h.caller = some cid →
        AMap.find? st.accounts (Account.Contract cid) = some ca → t.value ≤ ca.balance →
        (∀ c, t.to_acc = Account.Contract c →
          h.callOk c ⟨Account.Contract cid, t.value⟩ = true) →
        TokenState.transfer_from_contract h st t
          = .ok (specCredit (specDebit st (Account.Contract cid) t.value) t.to_acc t.value)) := by
  intro h st t
  refine ⟨fun f => rfl, transfer_from_contract_err_no_caller,
    fun cid hc hfind => transfer_from_contract_err_no_account hc hfind,
    fun cid ca hc hfind hbal => transfer_from_contract_err_balance hc hfind hbal, ?_, ?_⟩
  · intro cid st' hc H
    obtain ⟨cid', ca, hc', hfind', _, _, _, rfl⟩ := transfer_from_contract_ok_elim H
    rw [hc] at hc'
    injection hc' with hcc
    subst hcc
    rfl
  · intro cid ca hr hc hfind hval hcall
    obtain ⟨hsum, hsup, _, _⟩ := reachable_inv hr
    have hca_le : ca.balance ≤ sumBal st.accounts := find?_balance_le_sumBal hfind
    have hcred : ((AMap.find? (AMap.insert st.accounts (Account.Contract cid)
        ⟨ca.balance - t.value, ca.nonce⟩) t.to_acc).getD AccountInfo.EMPTY).balance
          + t.value < U64LIMIT := by
      rw [AMap.find?_insert]
      by_cases heq : Account.Contract cid = t.to_acc
      · rw [if_pos heq]
        simp only [Option.getD_some]
        omega
      · rw [if_neg heq]
        cases hto : AMap.find? st.accounts t.to_acc with
        | none => simp only [Option.getD_none]; simp [AccountInfo.EMPTY]; omega
        | some w =>
          simp only [Option.getD_some]
          have := find?_two_balance_le_sumBal heq hfind hto
          omega
    obtain ⟨st', hok⟩ := transfer_from_contract_ok_cases hc hfind (by omega) hcred hcall
    rw [hok]
    obtain ⟨cid', ca', hc', hfind', _, _, _, rfl⟩ := transfer_from_contract_ok_elim hok
    rw [hc] at hc'
    injection hc' with hcc
    subst hcc
    rfl

/-- C8 witness: on the reachable contract-holding genesis state, a
contract-initiated send of 40 from caller 7 to `External 5` succeeds and
equals debit-then-credit. -/
theorem C8_transfer_from_contract_caller_witness :
    TokenState.transfer_from_contract trueHost stCon ⟨none, Account.External 5, 40⟩
      = .ok (specCredit (specDebit stCon (Account.Contract 7) 40) (Account.External 5) 40) :=
  (C8_transfer_from_contract_caller trueHost stCon ⟨none, Account.External 5, 40⟩).2.2.2.2.2
    7 ⟨100, 0⟩ (Reachable.genesis [(Account.Contract 7, 100)] stCon (by rfl))
    (by rfl) (by rfl) (by decide) (fun c hc => by cases hc)

theorem mem_balance_le_sumBal {m : AMap Account AccountInfo} {p : Account × AccountInfo}
    (h : p ∈ m) : p.2.balance ≤ sumBal m := by
  induction m with
  | nil => simp at h
  | cons q rest ih =>
    simp only [List.mem_cons] at h
    rcases h with h | h
    · subst h
      simp only [sumBal]
      omega
    · have := ih h
      simp only [sumBal]
      omega

/-- C9: the ledger's 64-bit arithmetic never silently wraps — every value in
a reachable state (supply, balances, nonces) fits in 64 bits; a genesis list
whose balances sum past `2^64 - 1` aborts with the fatal overflow error; a
credit that would push the recipient's balance past `2^64 - 1` aborts
fatally; a nonce increment at `2^64 - 1` aborts fatally; and a successful
debit never underflows (`value ≤ balance`), balances being `Nat` (never
negative) throughout. -/
theorem C9_no_silent_wraparound :
    (∀ st : TokenState, Reachable st → st.supply < U64LIMIT ∧
      ∀ p ∈ st.accounts, p.2.balance < U64LIMIT ∧ p.2.nonce < U64LIMIT) ∧
    (errKind (TokenState.init TokenState.empty
        [(Account.External 0, U64LIMIT - 1), (Account.External 1, 1)]) = some .Overflow) ∧
    (∀ (h : Host) (st : TokenState) (t : Transfer) (fa : AccountInfo),
      AMap.find? st.accounts (Account.External t.from_pk) = some fa →
      ¬ fa.balance < t.value → fa.nonce + 1 < U64LIMIT → t.nonce = fa.nonce + 1 →
      h.verifyTransfer t = true →
      ¬ ((AMap.find? (AMap.insert st.accounts (Account.External t.from_pk)
          ⟨fa.balance - t.value, fa.nonce + 1⟩) t.to_acc).getD
            AccountInfo.EMPTY).balance + t.value < U64LIMIT →
      errKind (TokenState.transfer h st t) = some .Overflow) ∧
    (∀ (h : Host) (st : TokenState) (t : Transfer) (fa : AccountInfo),
      AMap.find? st.accounts (Account.External t.from_pk) = some fa →
      ¬ fa.balance < t.value → fa.nonce = U64LIMIT - 1 →
      errKind (TokenState.transfer h st t) = some .Overflow) ∧
    (∀ (h : Host) (st st' : TokenState) (t : Transfer),
      TokenState.transfer h st t = .ok st' →
      t.value ≤ (st.account (Account.External t.from_pk)).balance) := by
  refine ⟨?_, by decide, ?_, ?_, ?_⟩
  · intro st hr
    obtain ⟨hsum, hsup, hnon, _⟩ := reachable_inv hr
    refine ⟨hsup, fun p hp => ⟨?_, hnon p hp⟩⟩
    have := mem_balance_le_sumBal hp
    omega
  · intro h st t fa hfind hbal hov hn hv hcred
    rw [transfer_err_credit_overflow hfind hbal hov hn hv hcred]
    rfl
  · intro h st t fa hfind hbal hmax
    have hov : ¬ fa.nonce + 1 < U64LIMIT := by
      have : (0 : Nat) < U64LIMIT := by norm_num [U64LIMIT]
      omega
    rw [transfer_err_nonce_overflow hfind hbal hov]
    rfl
  · intro h st st' t H
    obtain ⟨fa, hfind, hval, _, _, _, _, _, _⟩ := transfer_ok_elim H
    rw [account_eq_of_find? hfind]
    exact hval

/-- C9 witness: a sender whose nonce sits at `2^64 - 1` makes the transfer
abort with the fatal overflow error instead of wrapping. -/
theorem C9_no_silent_wraparound_witness :
    errKind (TokenState.transfer trueHost
      (TokenState.mk [(Account.External 0, ⟨5, U64LIMIT - 1⟩)] [] 5)
      ⟨0, Account.External 1, 1, 0, 0⟩) = some .Overflow :=
  C9_no_silent_wraparound.2.2.2.1 trueHost
    (TokenState.mk [(Account.External 0, ⟨5, U64LIMIT - 1⟩)] [] 5)
    ⟨0, Account.External 1, 1, 0, 0⟩ ⟨5, U64LIMIT - 1⟩ (by rfl) (by decide) (by rfl)

/-- C10: `transfer_from` and `approve` never report `NoSuchAccount` for the
authenticated party: an absent spender/owner record is created as the empty
record `{balance 0, nonce 0}` and authentication runs against it (the
operations behave exactly as if the empty record were pre-inserted), so an
identity that has never held a balance can approve with nonce 1 and act as a
spender with nonce 1; `transfer` by contrast rejects a `from` with no record
as `NoSuchAccount`. -/
theorem C10_fresh_identity_auth :
    (∀ (h : Host) (st : TokenState) (a : Approve) (e : TokenError) (stx : TokenState),
      TokenState.approve h st a = .error (e, stx) →
      e = .InvalidNonce ∨ e = .InvalidSignature ∨ e = .Overflow) ∧
    (∀ (h : Host) (st : TokenState) (t : TransferFrom),
      AMap.find? st.accounts (Account.External t.spender) = none →
      TokenState.transfer_from h st t = TokenState.transfer_from h
        (TokenState.mk (AMap.insert st.accounts (Account.External t.spender)
          AccountInfo.EMPTY) st.allowances st.supply) t) ∧
    (∀ (h : Host) (st : TokenState) (a : Approve),
      AMap.find? st.accounts (Account.External a.owner) = none →
      TokenState.approve h st a = TokenState.approve h
        (TokenState.mk (AMap.insert st.accounts (Account.External a.owner)
          AccountInfo.EMPTY) st.allowances st.supply) a) ∧
    (AMap.find? stGen.accounts (Account.External 5) = none ∧
      TokenState.approve trueHost stGen ⟨5, Account.External 9, 50, 1, 0⟩ =
        .ok (TokenState.mk [(Account.External 0, ⟨1000, 0⟩), (Account.External 5, ⟨0, 1⟩)]
          [(Account.External 5, [(Account.External 9, 50)])] 1000) ∧
      AMap.find? stApp.accounts (Account.External 5) = none ∧
      TokenState.transfer_from trueHost stApp
        ⟨5, Account.External 0, Account.External 2, 200, 1, 0⟩ = .ok stTFpost) ∧
    (∀ (h : Host) (st : TokenState) (t : Transfer),
      AMap.find? st.accounts (Account.External t.from_pk) = none →
      TokenState.transfer h st t = .error (.NoSuchAccount, st)) := by
  refine ⟨?_, ?_, ?_, ⟨by rfl, by rfl, by rfl, by rfl⟩, ?_⟩
  · intro h st a e stx H
    have hsa : (AMap.find? st.accounts (Account.External a.owner)).getD AccountInfo.EMPTY
        = st.account (Account.External a.owner) := rfl
    simp only [TokenState.approve] at H
    rw [hsa] at H
    by_cases hov : (st.account (Account.External a.owner)).nonce + 1 < U64LIMIT
    · rw [show checkedAdd (st.account (Account.External a.owner)).nonce 1
          = some ((st.account (Account.External a.owner)).nonce + 1) by
            simp [checkedAdd, hov]] at H
      simp only at H
      by_cases hn : a.nonce = (st.account (Account.External a.owner)).nonce + 1
      · rw [if_neg (by simp [hn])] at H
        by_cases hv : h.verifyApprove a
        · rw [if_neg (by simp [hv])] at H
          simp at H
        · rw [if_pos (by simp [hv])] at H
          simp only [Except.error.injEq, Prod.mk.injEq] at H
          obtain ⟨he, _⟩ := H
          subst he
          simp
      · rw [if_pos (by simp [hn])] at H
        simp only [Except.error.injEq, Prod.mk.injEq] at H
        obtain ⟨he, _⟩ := H
        subst he
        simp
    · rw [show checkedAdd (st.account (Account.External a.owner)).nonce 1 = none by
        simp [checkedAdd, hov]] at H
      simp only [Except.error.injEq, Prod.mk.injEq] at H
      obtain ⟨he, _⟩ := H
      subst he
      simp
  · intro h st t hfind
    simp only [TokenState.transfer_from, hfind, AMap.find?_insert_self,
      AMap.insert_insert_same, Option.getD_none, Option.getD_some]
  · intro h st a hfind
    simp only [TokenState.approve, hfind, AMap.find?_insert_self,
      AMap.insert_insert_same, Option.getD_none, Option.getD_some]
  · intro h st t hfind
    exact transfer_err_no_account hfind

/-- C10 witness: on the empty ledger, a `transfer` from an unknown identity
fails with `NoSuchAccount` (while the same identity could still approve or
act as a spender, per the theorem's other conjuncts). -/
theorem C10_fresh_identity_auth_witness :
    TokenState.transfer trueHost TokenState.empty ⟨0, Account.External 1, 5, 1, 0⟩ =
      .error (.NoSuchAccount, TokenState.empty) :=
  C10_fresh_identity_auth.2.2.2.2 trueHost TokenState.empty
    ⟨0, Account.External 1, 5, 1, 0⟩ (by rfl)

end TToken
